import Mathlib

/-!
Verification of the bubble-tab-manager grouping engine.

This file gives a shallow embedding, in Lean 4, of the core of the
repository: the title/color computation, the identity registry, the
durable group-mapping store, branch-data persistence, the retry policy
for host mutations, and the planning pass of the grouping engine
(`src/background/grouping.ts`, `src/background/registry.ts`,
`src/lib/storage.ts`, `src/lib/last-active-cache.ts`).

JavaScript `Map` and `Set` values are modelled as insertion-ordered
association lists (`List (κ × ν)`) and duplicate-free lists; JS object
maps keyed by `groupId.toString()` are modelled with their numeric keys
(`toString`/`parseInt` round-trip on naturals).  JS string truthiness
(`""` is falsy) is modelled explicitly where the source relies on it.
`Date.now()` timestamps are explicit `Int` arguments.

The numeric display-length threshold `VERSION_ID.MAX_DISPLAY_LENGTH`
lives in `src/lib/constants.ts`, which is not part of the provided
sources; every definition that needs it takes the threshold as an
explicit parameter (the spec only says "a length threshold").
-/

namespace BTM

/-- Association-list lookup, mirroring JS `Map.get`: first entry wins. -/
def aget {κ ν : Type} [DecidableEq κ] : List (κ × ν) → κ → Option ν
  | [], _ => none
  | p :: ps, k => if p.1 = k then some p.2 else aget ps k

/-- Association-list update, mirroring JS `Map.set`: an existing key is
replaced in place (insertion order kept), a new key is appended. -/
def aset {κ ν : Type} [DecidableEq κ] : List (κ × ν) → κ → ν → List (κ × ν)
  | [], k, v => [(k, v)]
  | p :: ps, k, v => if p.1 = k then (k, v) :: ps else p :: aset ps k v

/-- Association-list deletion, mirroring JS `Map.delete`. -/
def adel {κ ν : Type} [DecidableEq κ] (m : List (κ × ν)) (k : κ) : List (κ × ν) :=
  m.filter (fun p => !(decide (p.1 = k)))

/-- JS `Set.add` on a duplicate-free insertion-ordered list. -/
def sadd (s : List Nat) (t : Nat) : List Nat :=
  if s.contains t then s else s ++ [t]

/-- JS `Set.delete`. -/
def sdel (s : List Nat) (t : Nat) : List Nat :=
  s.filter (fun x => !(decide (x = t)))

/-- JS string truthiness for optional string fields: `""` is falsy, so a
check like `branchData?.displayName` passes only for a nonempty string. -/
def strTruthy : Option String → Option String
  | some s => if s.data.isEmpty then none else some s
  | none => none

/-- `s.split(':')` for the single-character separator used by the code
(keys of the form `appId + ":" + versionId`). -/
def splitColonAux : List Char → List Char → List String
  | [], acc => [String.mk acc.reverse]
  | ch :: rest, acc =>
    if ch = ':' then String.mk acc.reverse :: splitColonAux rest [] else splitColonAux rest (ch :: acc)

/-- JS `key.split(':')`. -/
def splitColon (s : String) : List String :=
  splitColonAux s.data []

/-- Substring test (`String.prototype.includes`), structural so that the
kernel can evaluate it. -/
def charsStartWith : List Char → List Char → Bool
  | _, [] => true
  | [], _ :: _ => false
  | c :: cs, p :: ps => c = p && charsStartWith cs ps

/-- Whether `pat` occurs inside `s` (JS `s.includes(pat)`). -/
def charsContain : List Char → List Char → Bool
  | [], pat => pat.isEmpty
  | c :: cs, pat => charsStartWith (c :: cs) pat || charsContain cs pat

/-- JS `message.includes(pattern)`. -/
def strContains (s pat : String) : Bool :=
  charsContain s.data pat.data

/-- Chrome tab-group colors (`chrome.tabGroups.ColorEnum`). -/
inductive Color where
  | grey | blue | red | yellow | green | pink | purple | cyan | orange
  deriving DecidableEq, Repr

/-- Branch Data (`BranchData` in `src/lib/storage.ts`): optional scraped
`name`, optional user `displayName`, optional pinned `color`. -/
structure BranchData where
  appId : String
  versionId : String
  name : Option String := none
  displayName : Option String := none
  color : Option Color := none
  updatedAt : Int
  deriving DecidableEq, Repr

/-- `RESERVED_COLORS` lookup (`getReservedColor` in `grouping.ts`):
live is green, test is blue, everything else has no reserved color. -/
def getReservedColor (versionId : String) : Option Color :=
  if versionId = "live" then some Color.green
  else if versionId = "test" then some Color.blue
  else none

/-- `isReservedVersion`: membership in `RESERVED_COLORS`. -/
def isReservedVersion (versionId : String) : Bool :=
  (getReservedColor versionId).isSome

/-- `!versionId || versionId.trim() === ''`: the string is empty or
whitespace-only. -/
def isBlankStr (s : String) : Bool :=
  s.data.all (fun c => c.isWhitespace)

/-- A character matched by the class `[a-f0-9-]` with the `i` flag. -/
def isHexDashChar (c : Char) : Bool :=
  ('a' ≤ c && c ≤ 'f') || ('A' ≤ c && c ≤ 'F') || ('0' ≤ c && c ≤ '9') || c = '-'

/-- The regex test `/^[a-f0-9-]+$/i.test(versionId)`. -/
def hexLike (s : String) : Bool :=
  !s.data.isEmpty && s.data.all isHexDashChar

/-- `shouldCleanVersionId` (`grouping.ts` lines 371-383): clean when the
id is empty/blank, or longer than the display threshold and hex/UUID-like.
`maxDisplayLength` stands for `VERSION_ID.MAX_DISPLAY_LENGTH` from the
missing `constants.ts`. -/
def shouldCleanVersionId (maxDisplayLength : Nat) (versionId : String) : Bool :=
  if isBlankStr versionId then true
  else decide (versionId.data.length > maxDisplayLength) && hexLike versionId

/-- `versionId.charAt(0).toUpperCase() + versionId.slice(1)`. -/
def capitalizeFirst (s : String) : String :=
  match s.data with
  | [] => ""
  | c :: rest => String.mk (c.toUpper :: rest)

/-- A JS word character (`\w`): letters, digits, underscore. -/
def isWordChar (c : Char) : Bool :=
  c.isAlpha || c.isDigit || c = '_'

/-- `.replace(/\b\w/g, l => l.toUpperCase())`: uppercase every word
character that starts a word (preceded by start or a non-word char). -/
def titleCaseAux : Bool → List Char → List Char
  | _, [] => []
  | prevWord, c :: rest =>
    (if isWordChar c && !prevWord then c.toUpper else c) :: titleCaseAux (isWordChar c) rest

/-- `cleanVersionIdForDisplay` (`grouping.ts` lines 388-400). -/
def cleanVersionIdForDisplay (maxDisplayLength : Nat) (versionId : String) : String :=
  if isBlankStr versionId then "Unknown Branch"
  else if decide (versionId.data.length > maxDisplayLength) && hexLike versionId then
    String.mk (versionId.data.take 8) ++ "..."
  else
    String.mk (titleCaseAux false (versionId.data.map (fun c => if c = '_' || c = '-' then ' ' else c)))

/-- `computeGroupTitle` (`grouping.ts` lines 320-366), as a pure function
of the branch data in hand (`branch ?? await storage.getBranch(...)`) and
of the single-app/multi-app status of the window. Priority: nonempty
`displayName` (verbatim, when requested), then the capitalized reserved
label, then a nonempty scraped `name`, then the raw `versionId`; the
label is cleaned when it still equals a `versionId` that
`shouldCleanVersionId` flags; finally multi-app windows get the
`" | appId"` suffix (the `displayName` branch returns early, unsuffixed). -/
def computeGroupTitle (maxDisplayLength : Nat) (appId versionId : String)
    (includeDisplayName : Bool) (branchData : Option BranchData) (isMultiApp : Bool) : String :=
  match (if includeDisplayName then strTruthy (branchData.bind (fun b => b.displayName)) else none) with
  | some d => d
  | none =>
    let versionLabel :=
      match getReservedColor versionId with
      | some _ => capitalizeFirst versionId
      | none =>
        match strTruthy (branchData.bind (fun b => b.name)) with
        | some n => n
        | none => versionId
    let versionLabel :=
      if versionLabel = versionId && shouldCleanVersionId maxDisplayLength versionId then
        cleanVersionIdForDisplay maxDisplayLength versionId
      else versionLabel
    if isMultiApp then versionLabel ++ " | " ++ appId else versionLabel

/-! Group property updates (`prepareGroupUpdates`, `updateGroupProperties`). -/

/-- The view of a host group that `prepareGroupUpdates` reads
(`chrome.tabGroups.TabGroup`): its current title (possibly undefined)
and current color. -/
structure GroupView where
  title : Option String
  color : Color
  deriving DecidableEq, Repr

/-- `chrome.tabGroups.UpdateProperties`: the fields an update writes. -/
structure UpdateProperties where
  title : Option String := none
  color : Option Color := none
  deriving DecidableEq, Repr

/-- `prepareGroupUpdates` (`grouping.ts` lines 286-303): include the
title only when it differs from the group's current title, and a color
only when one was supplied and differs from the current color. -/
def prepareGroupUpdates (group : GroupView) (title : String) (color : Option Color) : UpdateProperties :=
  { title := if group.title = some title then none else some title
    color :=
      match color with
      | some c => if group.color = c then none else some c
      | none => none }

/-- Effect of `chrome.tabGroups.update` on a group's visible state. -/
def applyUpdateProperties (group : GroupView) (updates : UpdateProperties) : GroupView :=
  { title := match updates.title with | some t => some t | none => group.title
    color := match updates.color with | some c => c | none => group.color }

/-- The updates computed by `updateGroupProperties` (`grouping.ts` lines
952-985): the automatic title with `includeDisplayName = true`, and the
color argument hard-wired to `undefined` (title-only refresh). -/
def updateGroupPropertiesUpdates (maxDisplayLength : Nat) (appId versionId : String)
    (branch : Option BranchData) (isMultiApp : Bool) (group : GroupView) : UpdateProperties :=
  prepareGroupUpdates group (computeGroupTitle maxDisplayLength appId versionId true branch isMultiApp) none

/-- The color decision on the group-creation path (`findOrCreateGroup`,
`grouping.ts` lines 186-208): a stored branch color is applied without
persisting; otherwise a reserved (test/live) color is applied and
persisted; otherwise no color is set (the host auto-assigns one).
Returns (color applied to the group, whether it is persisted to Branch
Data). -/
def creationColorAction (existingBranch : Option BranchData) (versionId : String) :
    Option Color × Bool :=
  match existingBranch.bind (fun b => b.color) with
  | some c => (some c, false)
  | none =>
    match getReservedColor versionId with
    | some rc => (some rc, true)
    | none => (none, false)

/-- `createDefaultBranch` (`grouping.ts` lines 990-992). -/
def createDefaultBranch (appId versionId : String) (now : Int) : BranchData :=
  { appId := appId, versionId := versionId, updatedAt := now }

/-- `persistBranchColor` (`grouping.ts` lines 423-443): fetch-or-default
the branch, set its color and `updatedAt`, and store it. Returns the
stored branch value. -/
def persistBranchColor (existingBranch : Option BranchData) (appId versionId : String)
    (color : Color) (now : Int) : BranchData :=
  let b := match existingBranch with
    | some b => b
    | none => createDefaultBranch appId versionId now
  { b with color := some color, updatedAt := now }

/-- `handleUserGroupRename` (`grouping.ts` lines 563-615), given the
group's resolved identity, its window's multi-app status, and the branch
data read once at the top: recompute the automatic title with
`includeDisplayName = false`; if the observed title equals it, write
nothing (`none`); otherwise store the observed title verbatim as the
branch's `displayName` with a fresh `updatedAt`. -/
def handleUserGroupRename (maxDisplayLength : Nat) (appId versionId : String)
    (isMultiApp : Bool) (branch : Option BranchData) (newTitle : String) (now : Int) :
    Option BranchData :=
  let automaticTitle := computeGroupTitle maxDisplayLength appId versionId false branch isMultiApp
  if newTitle = automaticTitle then none
  else
    let b := match branch with
      | some b => b
      | none => createDefaultBranch appId versionId now
    some { b with displayName := some newTitle, updatedAt := now }

/-! Retry policy (`retryTabOperation`, `grouping.ts` lines 1078-1106). -/

/-- Outcome of one invocation of the wrapped host operation. -/
inductive OpResult (α : Type) where
  | ok (v : α)
  | err (msg : String)
  deriving DecidableEq, Repr

/-- The transient-error test: the Chrome message for a tab mid-drag. -/
def isTabEditingRestriction (msg : String) : Bool :=
  strContains msg "cannot be edited right now" || strContains msg "user may be dragging"

/-- One run of the retry loop from attempt number `attempt` with
`remaining` retries left: a success returns immediately; a
non-transient error, or a transient error with no retries left, is
re-thrown; otherwise the loop sleeps `2^attempt * 100` ms plus the
jitter drawn for that attempt (`Math.random() * 50`) and tries again.
Returns the final outcome and the list of backoff delays slept. -/
def retryAux {α : Type} (res : Nat → OpResult α) (jitter : Nat → ℚ) :
    Nat → Nat → OpResult α × List ℚ
  | attempt, remaining =>
    match res attempt with
    | OpResult.ok v => (OpResult.ok v, [])
    | OpResult.err m =>
      if isTabEditingRestriction m then
        match remaining with
        | 0 => (OpResult.err m, [])
        | r + 1 =>
          let d : ℚ := 2 ^ attempt * 100 + jitter attempt
          let rest := retryAux res jitter (attempt + 1) r
          (rest.1, d :: rest.2)
      else (OpResult.err m, [])

/-- `retryTabOperation` with its default `maxRetries = 3`, over an
oracle `res` giving each attempt's outcome and an oracle `jitter`
giving each attempt's random jitter draw. -/
def retryTabOperation {α : Type} (res : Nat → OpResult α) (jitter : Nat → ℚ) :
    OpResult α × List ℚ :=
  retryAux res jitter 0 3

/-! Durable group mappings (`GroupPersistence` in `src/lib/storage.ts`). -/

/-- A durable group mapping (`GroupMapping`). -/
structure GroupMapping where
  appId : String
  versionId : String
  windowId : Nat
  lastSeen : Int
  deriving DecidableEq, Repr

/-- `MAX_AGE_MS`: the 24-hour staleness horizon, in milliseconds. -/
def MAX_AGE_MS : Int := 24 * 60 * 60 * 1000

/-- `cleanupStaleGroups` (`storage.ts` second part, lines 389-427) as a
pure function of the stored mappings, the ids of the host groups that
currently exist, and the current time: keep a mapping exactly when its
group still exists and `now - lastSeen` does not exceed the horizon. -/
def cleanupStaleGroups (mappings : List (Nat × GroupMapping)) (existingGroupIds : List Nat)
    (now : Int) : List (Nat × GroupMapping) :=
  mappings.filter (fun p =>
    existingGroupIds.contains p.1 && !(decide (now - p.2.lastSeen > MAX_AGE_MS)))

/-! Branch-data writes (`Storage.setBranch` / `doSetBranch` in
`src/lib/last-active-cache.ts` second part, lines 269-305). -/

/-- A `Partial<BranchData>` patch: a field is `some` when the caller's
object carries that key. -/
structure BranchPatch where
  name : Option String := none
  displayName : Option String := none
  color : Option Color := none
  deriving DecidableEq, Repr

/-- The object spread `{...existing, ...data, appId, versionId,
updatedAt: Date.now()}` in `doSetBranch`: fields present in the patch
win, the rest come from the existing record (or are absent when there
was none). -/
def mergeBranch (existing : Option BranchData) (appId versionId : String)
    (patch : BranchPatch) (now : Int) : BranchData :=
  { appId := appId
    versionId := versionId
    name := match patch.name with | some n => some n | none => existing.bind (fun b => b.name)
    displayName :=
      match patch.displayName with
      | some d => some d
      | none => existing.bind (fun b => b.displayName)
    color := match patch.color with | some c => some c | none => existing.bind (fun b => b.color)
    updatedAt := now }

/-- `doSetBranch`: re-read the branches map, merge the patch over the
current record for the key, and write the result back. -/
def doSetBranch (branches : List (String × BranchData)) (appId versionId : String)
    (patch : BranchPatch) (now : Int) : List (String × BranchData) :=
  let key := appId ++ ":" ++ versionId
  aset branches key (mergeBranch (aget branches key) appId versionId patch now)

/-- Two overlapping `setBranch` calls for the same `(appId, versionId)`
key: the per-key `writeQueue` makes the second call await the first
call's write promise before starting its own `doSetBranch`, so the
second read-merge-write runs entirely after the first completes; the
execution is the sequential composition of the two `doSetBranch`
operations. -/
def setBranchPairSerialized (branches : List (String × BranchData)) (appId versionId : String)
    (patch1 patch2 : BranchPatch) (t1 t2 : Int) : List (String × BranchData) :=
  doSetBranch (doSetBranch branches appId versionId patch1 t1) appId versionId patch2 t2

/-! Identity Registry (`GroupRegistry` in `src/background/registry.ts`). -/

/-- Page type of a tab identity. -/
inductive PageType where
  | editor | preview
  deriving DecidableEq, Repr

/-- A `TabIdentity` as passed to `setTabIdentity`. -/
structure TabIdentity where
  appId : String
  versionId : String
  ty : PageType
  hostname : String
  deriving DecidableEq, Repr

/-- A `RegistryEntry`. -/
structure RegistryEntry where
  tabId : Nat
  windowId : Nat
  appId : String
  versionId : String
  ty : PageType
  hostname : String
  url : String
  updatedAt : Int
  deriving DecidableEq, Repr

/-- The three-level window-to-app-to-version-to-tab-set index. -/
abbrev Nested := List (Nat × List (String × List (String × List Nat)))

/-- The registry's two indexes: the nested identity index and the flat
tab index. -/
structure Registry where
  tabsByIdentity : Nested
  tabIndex : List (Nat × RegistryEntry)
  deriving DecidableEq, Repr

/-- The empty registry. -/
def Registry.empty : Registry :=
  { tabsByIdentity := [], tabIndex := [] }

/-- Read the tab set at a nested path, defaulting to empty at every
missing level. -/
def nGet (n : Nested) (w : Nat) (a v : String) : List Nat :=
  ((aget ((aget n w).getD []) a).getD [] |> fun am => (aget am v).getD [])

/-- `removeTab` (`registry.ts` lines 73-113): look the tab up in the
flat index (no-op when absent), delete it from its version set, prune
empty version/app/window containers, and delete the flat entry. -/
def Registry.removeTab (r : Registry) (tabId : Nat) : Registry :=
  match aget r.tabIndex tabId with
  | none => r
  | some e =>
    let n := r.tabsByIdentity
    let n2 :=
      match aget n e.windowId with
      | none => n
      | some wm =>
        match aget wm e.appId with
        | none => n
        | some am =>
          match aget am e.versionId with
          | none => n
          | some vs =>
            let vs2 := sdel vs tabId
            if vs2.isEmpty then
              let am2 := adel am e.versionId
              if am2.isEmpty then
                let wm2 := adel wm e.appId
                if wm2.isEmpty then adel n e.windowId
                else aset n e.windowId wm2
              else aset n e.windowId (aset wm e.appId am2)
            else aset n e.windowId (aset wm e.appId (aset am e.versionId vs2))
    { tabsByIdentity := n2, tabIndex := adel r.tabIndex tabId }

/-- `setTabIdentity` (`registry.ts` lines 24-68): remove any previous
entry for the tab, create the nested containers as needed, add the tab
to its version set, and write the flat entry. -/
def Registry.setTabIdentity (r : Registry) (tabId windowId : Nat) (identity : TabIdentity)
    (url : String) (now : Int) : Registry :=
  let r := r.removeTab tabId
  let wm := (aget r.tabsByIdentity windowId).getD []
  let am := (aget wm identity.appId).getD []
  let vs := (aget am identity.versionId).getD []
  { tabsByIdentity :=
      aset r.tabsByIdentity windowId
        (aset wm identity.appId (aset am identity.versionId (sadd vs tabId)))
    tabIndex :=
      aset r.tabIndex tabId
        { tabId := tabId, windowId := windowId, appId := identity.appId
          versionId := identity.versionId, ty := identity.ty
          hostname := identity.hostname, url := url, updatedAt := now } }

/-- `getIdentity`. -/
def Registry.getIdentity (r : Registry) (tabId : Nat) : Option RegistryEntry :=
  aget r.tabIndex tabId

/-- `getWindowTabs`: every flat entry whose `windowId` matches, in flat
iteration (insertion) order. -/
def Registry.getWindowTabs (r : Registry) (windowId : Nat) : List RegistryEntry :=
  (r.tabIndex.filter (fun p => decide (p.2.windowId = windowId))).map (fun p => p.2)

/-- Duplicate-removing accumulation for `getWindowApps` (a JS `Set`
built from map keys). -/
def dedupAux : List String → List String → List String
  | [], acc => acc.reverse
  | x :: xs, acc => if acc.contains x then dedupAux xs acc else dedupAux xs (x :: acc)

/-- `getWindowApps`: the distinct app ids keyed in the window's map. -/
def Registry.getWindowApps (r : Registry) (windowId : Nat) : List String :=
  dedupAux (((aget r.tabsByIdentity windowId).getD []).map (fun p => p.1)) []

/-- `isMultiAppWindow` (`grouping.ts` lines 405-408). -/
def isMultiAppWindow (r : Registry) (windowId : Nat) : Bool :=
  decide (1 < (r.getWindowApps windowId).length)

/-- One registry operation, for quantifying over call sequences. -/
inductive RegOp where
  | set (tabId windowId : Nat) (identity : TabIdentity) (url : String) (now : Int)
  | remove (tabId : Nat)

/-- Apply a list of registry operations, oldest first, to the empty
registry. -/
def applyRegOps : List RegOp → Registry
  | [] => Registry.empty
  | op :: ops =>
    let r := applyRegOps ops
    match op with
    | RegOp.set t w i u n => r.setTabIdentity t w i u n
    | RegOp.remove t => r.removeTab t

/-! Manual holds and bucketing (`grouping.ts` lines 72-117, 695-698). -/

/-- A manual hold: the identity the tab was holding when the user pulled
it out of a group (`ManualHold` minus its timestamp bookkeeping). -/
structure ManualHold where
  appId : String
  versionId : String
  deriving DecidableEq, Repr

/-- `hasManualHold`: a hold for this tab exists and matches its current
identity. -/
def hasManualHold (holds : List (Nat × ManualHold)) (tabId : Nat) (appId versionId : String) : Bool :=
  match aget holds tabId with
  | some h => decide (h.appId = appId) && decide (h.versionId = versionId)
  | none => false

/-- A tab bucket (`TabBucket`): the tabs of one `(windowId, appId,
versionId)` identity, with the bucket's debugging key. Tabs are carried
by id. -/
structure TabBucket where
  windowId : Nat
  appId : String
  versionId : String
  tabs : List Nat
  key : String
  deriving DecidableEq, Repr

/-- The per-entry step of the bucketing loop: make sure the key has a
slot (`appVersionMap.set(key, [])` on a miss), then push the tab when it
survived the eligibility checks. A JS `Map.set` on an existing key keeps
its position, so the slot creation appends only new keys. -/
def bucketInsert (m : List (String × List Nat)) (k : String) (add : Option Nat) :
    List (String × List Nat) :=
  let m := if (aget m k).isSome then m else m ++ [(k, [])]
  match add with
  | none => m
  | some t => m.map (fun p => if p.1 = k then (p.1, p.2 ++ [t]) else p)

/-- `const [appId, versionId] = key.split(':')`: JS array destructuring
takes the first two pieces (missing pieces become `undefined`; a key
always holds at least one `':'`, so both pieces exist). -/
def splitKey (key : String) : String × String :=
  match splitColon key with
  | a :: v :: _ => (a, v)
  | a :: [] => (a, "")
  | [] => ("", "")

/-- Eligibility of a registered tab for bucketing: `chrome.tabs.get`
succeeds (`tabExists`), the tab is not pinned, and it has no manual
hold matching its current identity. -/
def eligibleTab (holds : List (Nat × ManualHold)) (tabExists tabPinned : Nat → Bool)
    (e : RegistryEntry) : Bool :=
  tabExists e.tabId && !tabPinned e.tabId && !hasManualHold holds e.tabId e.appId e.versionId

/-- The per-window body of `bucketTabsByIdentity`: fold the window's
registry entries into the keyed map, pushing the eligible ones. -/
def bucketWindowMap (entries : List RegistryEntry) (holds : List (Nat × ManualHold))
    (tabExists : Nat → Bool) (tabPinned : Nat → Bool) : List (String × List Nat) :=
  entries.foldl
    (fun m e =>
      bucketInsert m (e.appId ++ ":" ++ e.versionId)
        (if eligibleTab holds tabExists tabPinned e then some e.tabId else none))
    []

/-- `bucketTabsByIdentity` (`grouping.ts` lines 72-117): iterate the
windows of the nested index, bucket each window's registry tabs by the
string key `appId + ":" + versionId`, and emit one bucket per nonempty
key, parsing the bucket's `appId`/`versionId` back out of the key with
`split(':')`. The host tab table is abstracted by the `tabExists` and
`tabPinned` oracles. -/
def bucketTabsByIdentity (r : Registry) (holds : List (Nat × ManualHold))
    (tabExists : Nat → Bool) (tabPinned : Nat → Bool) : List TabBucket :=
  (r.tabsByIdentity.map (fun p => p.1)).foldl
    (fun acc w =>
      let m := bucketWindowMap (r.getWindowTabs w) holds tabExists tabPinned
      acc ++ (m.filterMap (fun p =>
        if p.2.isEmpty then none
        else some { windowId := w, appId := (splitKey p.1).1, versionId := (splitKey p.1).2
                    tabs := p.2, key := p.1 })))
    []

/-! The planning pass over host state (`grouping.ts` with the
`GroupPersistence` store of `storage.ts`). Host tabs, groups, the
durable stores and the registry are captured in one explicit state; the
host auto-removal of emptied groups and its `onRemoved` event handler
(`handleGroupRemoval`) run outside the pass and are not part of it. -/

/-- A host tab (`chrome.tabs.Tab`): `groupId = none` models
`TAB_GROUP_ID_NONE`. -/
structure HostTab where
  id : Nat
  windowId : Nat
  groupId : Option Nat
  pinned : Bool
  deriving DecidableEq, Repr

/-- A host tab group (`chrome.tabGroups.TabGroup`). -/
structure HostGroup where
  id : Nat
  windowId : Nat
  title : Option String
  color : Color
  deriving DecidableEq, Repr

/-- The state a planning pass reads and writes: host tabs and groups,
the durable group-mapping store, the extension-group tracking list, the
branch store, the registry, the engine's manual holds, the persisted
grouping-enabled flag, the clock, and the host's next fresh group id. -/
structure SysState where
  tabs : List HostTab
  groups : List HostGroup
  mappings : List (Nat × GroupMapping)
  extensionGroups : List Nat
  branches : List (String × BranchData)
  registry : Registry
  holds : List (Nat × ManualHold)
  groupingEnabled : Bool
  now : Int
  nextGroupId : Nat
  deriving DecidableEq, Repr

/-- `chrome.tabGroups.get`. -/
def getGroup (s : SysState) (g : Nat) : Option HostGroup :=
  s.groups.find? (fun gr => decide (gr.id = g))

/-- `chrome.tabs.get`. -/
def getTab (s : SysState) (t : Nat) : Option HostTab :=
  s.tabs.find? (fun tb => decide (tb.id = t))

/-- `chrome.tabs.query({ groupId })`. -/
def tabsInGroup (s : SysState) (g : Nat) : List HostTab :=
  s.tabs.filter (fun tb => decide (tb.groupId = some g))

/-- `findGroupsForIdentity` (`storage.ts` second part, lines 433-457).
The window filter is `!windowId || mapping.windowId === windowId`, so a
caller passing the falsy `0` disables the filter, as does omitting it. -/
def findGroupsForIdentity (mappings : List (Nat × GroupMapping)) (appId versionId : String)
    (windowId : Option Nat) : List Nat :=
  (mappings.filter (fun p =>
    decide (p.2.appId = appId) && decide (p.2.versionId = versionId) &&
    (match windowId with
     | none => true
     | some w => decide (w = 0) || decide (p.2.windowId = w)))).map (fun p => p.1)

/-- `storeGroupMapping`: write the mapping under the group's key with a
fresh `lastSeen`. -/
def storeGroupMapping (s : SysState) (g : Nat) (appId versionId : String) (windowId : Nat) :
    SysState :=
  let m : GroupMapping :=
    { appId := appId, versionId := versionId, windowId := windowId, lastSeen := s.now }
  { s with mappings := aset s.mappings g m }

/-- `touchGroupMapping`: refresh `lastSeen` when the mapping exists. -/
def touchGroupMapping (s : SysState) (g : Nat) : SysState :=
  match aget s.mappings g with
  | some m => { s with mappings := aset s.mappings g { m with lastSeen := s.now } }
  | none => s

/-- An identity candidate used by the majority vote. -/
structure MIdent where
  appId : String
  versionId : String
  windowId : Nat
  deriving DecidableEq, Repr

/-- `findMajorityIdentity` (`grouping.ts` lines 997-1021): count
candidates by `appId:versionId` key (details keep the last candidate per
key), then take the first key with a strictly larger count. -/
def findMajorityIdentity (l : List MIdent) : Option MIdent :=
  match l with
  | [] => none
  | _ :: _ =>
    let cd := l.foldl
      (fun (p : List (String × Nat) × List (String × MIdent)) i =>
        let k := i.appId ++ ":" ++ i.versionId
        (aset p.1 k (((aget p.1 k).getD 0) + 1), aset p.2 k i))
      ([], [])
    let mk := cd.1.foldl (fun (p : String × Nat) kv => if kv.2 > p.2 then kv else p) ("", 0)
    aget cd.2 mk.1

/-- `getGroupIdentity` (`grouping.ts` lines 875-946): collect the
registry identities of the group's members whose physical group
membership confirms the registry (the re-read of a member of the static
query result always confirms it here); on an empty result fall back to
the persisted mapping, validated against the group's window, touching
it; on a nonempty result take the majority identity and backfill the
store with it. -/
def getGroupIdentity (s : SysState) (g : Nat) : Option MIdent × SysState :=
  let validIdentities := (tabsInGroup s g).filterMap (fun tb =>
    match s.registry.getIdentity tb.id with
    | some e => some { appId := e.appId, versionId := e.versionId, windowId := tb.windowId : MIdent }
    | none => none)
  match validIdentities with
  | [] =>
    match aget s.mappings g with
    | some m =>
      match getGroup s g with
      | some grp =>
        if grp.windowId = m.windowId then
          (some { appId := m.appId, versionId := m.versionId, windowId := m.windowId },
           touchGroupMapping s g)
        else (none, s)
      | none => (none, s)
    | none => (none, s)
  | _ :: _ =>
    match findMajorityIdentity validIdentities with
    | some i => (some i, storeGroupMapping s g i.appId i.versionId i.windowId)
    | none => (none, s)

/-- The candidate-validation loop of `findGroupByIdentity`: return the
first persisted candidate that still exists in the target window,
touching its mapping; silently skip dead or misplaced candidates. -/
def validateCandidates (s : SysState) (w : Nat) : List Nat → Option Nat × SysState
  | [] => (none, s)
  | g :: gs =>
    match getGroup s g with
    | some grp =>
      if grp.windowId = w then (some g, touchGroupMapping s g)
      else validateCandidates s w gs
    | none => validateCandidates s w gs

/-- The fallback scan of `findGroupByIdentity`: derive each window
group's identity (with `getGroupIdentity`'s store side effects) and
return the first match, backfilling its mapping. -/
def scanGroups (w : Nat) (appId versionId : String) :
    SysState → List Nat → Option Nat × SysState
  | s, [] => (none, s)
  | s, g :: gs =>
    match getGroupIdentity s g with
    | (some i, s1) =>
      if i.appId = appId ∧ i.versionId = versionId then
        (some g, storeGroupMapping s1 g appId versionId w)
      else scanGroups w appId versionId s1 gs
    | (none, s1) => scanGroups w appId versionId s1 gs

/-- `findGroupByIdentity` (`grouping.ts` lines 823-869): persisted
candidates first, then the per-window scan by majority vote. -/
def findGroupByIdentity (s : SysState) (w : Nat) (appId versionId : String) :
    Option Nat × SysState :=
  let cands := findGroupsForIdentity s.mappings appId versionId (some w)
  match validateCandidates s w cands with
  | (some g, s1) => (some g, s1)
  | (none, s1) =>
    scanGroups w appId versionId s1 ((s1.groups.filter (fun gr => decide (gr.windowId = w))).map (fun gr => gr.id))

/-- `chrome.tabGroups.update` on the host state. -/
def applyGroupUpdatesState (s : SysState) (g : Nat) (u : UpdateProperties) : SysState :=
  { s with groups := s.groups.map (fun gr =>
      if gr.id = g then
        { gr with
          title := match u.title with | some t => some t | none => gr.title
          color := match u.color with | some c => c | none => gr.color }
      else gr) }

/-- `findOrCreateGroup` (`grouping.ts` lines 152-227): look up first;
on a miss, create a group around the bucket's first tab (a missing
first tab makes `chrome.tabs.group` throw, caught into `null`), track
it, set the initial title, run the creation color policy, persist a
reserved color, and record the new mapping. -/
def findOrCreateGroup (maxDisplayLength : Nat) (s : SysState) (b : TabBucket) :
    Option Nat × SysState :=
  match findGroupByIdentity s b.windowId b.appId b.versionId with
  | (some g, s1) => (some g, s1)
  | (none, s1) =>
    match b.tabs with
    | [] => (none, s1)
    | t0 :: _ =>
      match getTab s1 t0 with
      | none => (none, s1)
      | some tab0 =>
        let gid := s1.nextGroupId
        let ng : HostGroup := { id := gid, windowId := tab0.windowId, title := none, color := Color.grey }
        let s2 := { s1 with
          groups := s1.groups ++ [ng]
          tabs := s1.tabs.map (fun tb : HostTab => if tb.id = t0 then { tb with groupId := some gid } else tb)
          nextGroupId := s1.nextGroupId + 1 }
        let s3 := { s2 with extensionGroups :=
          if s2.extensionGroups.contains gid then s2.extensionGroups
          else s2.extensionGroups ++ [gid] }
        let initialTitle :=
          if shouldCleanVersionId maxDisplayLength b.versionId then
            cleanVersionIdForDisplay maxDisplayLength b.versionId
          else b.versionId
        let s4 := applyGroupUpdatesState s3 gid { title := some initialTitle }
        let existingBranch := aget s4.branches (b.appId ++ ":" ++ b.versionId)
        let s5 :=
          match creationColorAction existingBranch b.versionId with
          | (some c, false) => applyGroupUpdatesState s4 gid { color := some c }
          | (some c, true) =>
            let s' := applyGroupUpdatesState s4 gid { color := some c }
            let nb := persistBranchColor existingBranch b.appId b.versionId c s'.now
            { s' with branches := aset s'.branches (b.appId ++ ":" ++ b.versionId) nb }
          | (none, _) => s4
        (some gid, storeGroupMapping s5 gid b.appId b.versionId b.windowId)

/-- `moveTabsToGroup` (`grouping.ts` lines 232-254): bulk-move every
bucket tab but the first into the group; a single failing id fails the
whole host call, which is caught and leaves the state unchanged. -/
def moveTabsToGroup (s : SysState) (tabs : List Nat) (g : Nat) : SysState :=
  let toMove := tabs.drop 1
  if toMove.isEmpty then s
  else if toMove.all (fun t => (getTab s t).isSome) && (getGroup s g).isSome then
    { s with tabs := s.tabs.map (fun tb =>
        if toMove.contains tb.id then { tb with groupId := some g } else tb) }
  else s

/-- `updateGroupProperties` (`grouping.ts` lines 952-985) on the host
state: read the group (give up silently when it is gone), compute the
automatic title, and apply the title-only diff. -/
def updateGroupPropertiesState (maxDisplayLength : Nat) (s : SysState) (g : Nat)
    (b : TabBucket) (branchData : Option BranchData) : SysState :=
  match getGroup s g with
  | none => s
  | some grp =>
    let updates := updateGroupPropertiesUpdates maxDisplayLength b.appId b.versionId
      (match branchData with
       | some bd => some bd
       | none => aget s.branches (b.appId ++ ":" ++ b.versionId))
      (isMultiAppWindow s.registry b.windowId) { title := grp.title, color := grp.color }
    if updates.title.isSome || updates.color.isSome then applyGroupUpdatesState s g updates
    else s

/-- `processTabBucket` (`grouping.ts` lines 122-147). -/
def processTabBucket (maxDisplayLength : Nat) (s : SysState) (b : TabBucket) : SysState :=
  match findOrCreateGroup maxDisplayLength s b with
  | (none, s1) => s1
  | (some g, s1) =>
    let s2 := if 1 < b.tabs.length then moveTabsToGroup s1 b.tabs g else s1
    updateGroupPropertiesState maxDisplayLength s2 g b none

/-- `cleanupEmptyGroups` (`grouping.ts` lines 448-478): groups the
extension tracks that no longer exist are dropped from tracking; empty
but existing groups are deliberately preserved. Mappings are untouched. -/
def cleanupEmptyGroups (s : SysState) : SysState :=
  { s with extensionGroups := s.extensionGroups.filter (fun g => (getGroup s g).isSome) }

/-- `planAndExecuteGrouping` (`grouping.ts` lines 35-67): abort when
grouping is disabled or no tabs are registered; otherwise bucket once
up front, process the buckets strictly sequentially, then clean up
tracking of vanished groups. -/
def planAndExecuteGrouping (maxDisplayLength : Nat) (s : SysState) : SysState :=
  if !s.groupingEnabled then s
  else if s.registry.tabIndex.isEmpty then s
  else
    let buckets := bucketTabsByIdentity s.registry s.holds
      (fun t => (getTab s t).isSome)
      (fun t => (match getTab s t with | some tb => tb.pinned | none => false))
    cleanupEmptyGroups (buckets.foldl (fun st b => processTabBucket maxDisplayLength st b) s)

/-- The number of store mappings for one `(windowId, appId, versionId)`
identity. -/
def mappingsForIdentity (s : SysState) (w : Nat) (appId versionId : String) : Nat :=
  (s.mappings.filter (fun p =>
    decide (p.2.windowId = w) && decide (p.2.appId = appId) && decide (p.2.versionId = versionId))).length

/-! Identity-change handling (`handleTabIdentityChange`,
`moveSingleTabToGroup`, `grouping.ts` lines 259-280 and 495-558). The
individual host calls are abstracted by outcome oracles: `tabRes` is
the `chrome.tabs.get(tabId)` read at the top, `focRes` the outcome of
`findOrCreateGroup` (`err` = an exception escaping it, `ok none` = its
internal catch turned a creation failure into `null`), `moveCallRes`
the grouping call inside `moveSingleTabToGroup`, and `verifyRes` the
re-read of the tab's group membership. -/

/-- The fields of the changed tab that the handler reads. -/
structure TabView where
  windowId : Nat
  groupId : Option Nat
  deriving DecidableEq, Repr

/-- `moveSingleTabToGroup`: issue the single-tab group mutation, then
re-read the tab and report whether it really landed in the target
group; any exception is caught into `false`. -/
def moveSingleTabToGroupOutcome (moveCallRes : OpResult Unit)
    (verifyRes : OpResult (Option Nat)) (target : Nat) : Bool :=
  match moveCallRes with
  | OpResult.err _ => false
  | OpResult.ok _ =>
    match verifyRes with
    | OpResult.err _ => false
    | OpResult.ok g => decide (g = some target)

/-- `handleTabIdentityChange(tabId, newAppId, newVersionId)`: release a
manual hold that no longer matches, then move physically first. The JS
guard `if (targetGroupId && tab.groupId !== targetGroupId)` treats a
`null` (or `0`) target as "no move needed" and returns normally; a
failed verified move raises `Physical tab move failed`; exceptions from
the tab read or the group resolution are re-thrown. `windowId = 0`
models the falsy `!tab.windowId` early return. Returns the surviving
hold and the call's outcome. -/
def handleTabIdentityChange (hold : Option ManualHold) (newAppId newVersionId : String)
    (tabRes : OpResult TabView) (focRes : OpResult (Option Nat))
    (moveCallRes : OpResult Unit) (verifyRes : OpResult (Option Nat)) :
    Option ManualHold × OpResult Unit :=
  let hold2 := match hold with
    | some h => if h.appId ≠ newAppId ∨ h.versionId ≠ newVersionId then none else some h
    | none => none
  (hold2,
   match tabRes with
   | OpResult.err e => OpResult.err e
   | OpResult.ok tab =>
     if tab.windowId = 0 then OpResult.ok ()
     else
       match focRes with
       | OpResult.err e => OpResult.err e
       | OpResult.ok none => OpResult.ok ()
       | OpResult.ok (some target) =>
         if target ≠ 0 ∧ tab.groupId ≠ some target then
           if moveSingleTabToGroupOutcome moveCallRes verifyRes target then OpResult.ok ()
           else OpResult.err "Physical tab move failed"
         else OpResult.ok ())

/-! Predicates and fixtures used by the theorems below. -/

/-- Key-uniqueness of an association list (holds for every list that
models a JS `Map` or object). -/
def nodupKeys {κ ν : Type} (m : List (κ × ν)) : Prop :=
  (m.map Prod.fst).Nodup

/-- Reading a version set out of an app map, with the empty default. -/
def aGet1 (am : List (String × List Nat)) (v : String) : List Nat :=
  (aget am v).getD []

/-- Reading a version set out of a window map, with empty defaults. -/
def aGet2 (wm : List (String × List (String × List Nat))) (a v : String) : List Nat :=
  aGet1 ((aget wm a).getD []) v

/-- Health of one app map: unique version keys, non-empty, and every
version set duplicate-free and non-empty. -/
def AmOK (am : List (String × List Nat)) : Prop :=
  nodupKeys am ∧ am ≠ [] ∧ ∀ v vs, aget am v = some vs → vs.Nodup ∧ vs ≠ []

/-- Health of one window map: unique app keys, non-empty, and every app
map healthy. -/
def WmOK (wm : List (String × List (String × List Nat))) : Prop :=
  nodupKeys wm ∧ wm ≠ [] ∧ ∀ a am, aget wm a = some am → AmOK am

/-- Structural well-formedness of the nested index: unique keys and
duplicate-free sets at every level, and no empty intermediate
container. -/
def NestedOK (n : Nested) : Prop :=
  nodupKeys n ∧ ∀ w wm, aget n w = some wm → WmOK wm

/-- Well-formedness of the registry's two indexes: structural health of
the nested index, unique flat keys, the flat entry's `tabId` matching
its key, and exact agreement between nested membership and the flat
index. -/
def RegistryWF (r : Registry) : Prop :=
  nodupKeys r.tabIndex ∧ NestedOK r.tabsByIdentity ∧
  (∀ t e, aget r.tabIndex t = some e → e.tabId = t) ∧
  (∀ t w a v, t ∈ nGet r.tabsByIdentity w a v ↔
    ∃ e, aget r.tabIndex t = some e ∧ e.windowId = w ∧ e.appId = a ∧ e.versionId = v)

/-- No registered identity component contains the `':'` separator that
`bucketTabsByIdentity` joins and re-splits keys with. -/
def colonFreeRegistry (r : Registry) : Prop :=
  ∀ t e, aget r.tabIndex t = some e → ¬ ':' ∈ e.appId.data ∧ ¬ ':' ∈ e.versionId.data

/-- The concatenation of all bucket tab lists. -/
def allBucketTabs (bs : List TabBucket) : List Nat :=
  (bs.map TabBucket.tabs).flatten

/-- Two engine states that can differ only in the durable group-mapping
store. -/
def SameExceptMappings (s t : SysState) : Prop :=
  t.tabs = s.tabs ∧ t.groups = s.groups ∧ t.extensionGroups = s.extensionGroups ∧
  t.branches = s.branches ∧ t.registry = s.registry ∧ t.holds = s.holds ∧
  t.groupingEnabled = s.groupingEnabled ∧ t.now = s.now ∧ t.nextGroupId = s.nextGroupId

/-- A 32-character hex-like version id, longer than any reasonable
display threshold. -/
def longHexA : String := "aaaaaaaaaaaaaaaaaaaaaaaaaaaaaaaa"

/-- Branch data whose scraped name coincides with its hash-like version
id. -/
def cexBranchC1 : BranchData :=
  { appId := "app1", versionId := longHexA, name := some longHexA, updatedAt := 0 }

/-- A registry holding two tabs of window 1 whose identities
`("a", "b:c")` and `("a:b", "c")` share the joined bucket key
`"a:b:c"`. -/
def cexRegistryC5 : Registry :=
  (Registry.empty.setTabIdentity 1 1
      { appId := "a", versionId := "b:c", ty := PageType.editor, hostname := "h" } "u" 0).setTabIdentity 2 1
    { appId := "a:b", versionId := "c", ty := PageType.editor, hostname := "h" } "u" 0

/-- A reachable pre-pass state: window 1 holds group 10 (mapped to
identity `("a","j")`, containing registered tab 1 of that identity) and
group 20 (unmapped, containing registered tab 2 of identity `("a","j")`
plus the unregistered tab 4), and the ungrouped registered tab 3 of
identity `("a","i")`. Exactly one mapping per identity exists before the
pass. -/
def cexStateC3 : SysState :=
  { tabs :=
      [ { id := 1, windowId := 1, groupId := some 10, pinned := false }
      , { id := 2, windowId := 1, groupId := some 20, pinned := false }
      , { id := 3, windowId := 1, groupId := none, pinned := false }
      , { id := 4, windowId := 1, groupId := some 20, pinned := false } ]
    groups :=
      [ { id := 10, windowId := 1, title := none, color := Color.grey }
      , { id := 20, windowId := 1, title := none, color := Color.yellow } ]
    mappings := [(10, { appId := "a", versionId := "j", windowId := 1, lastSeen := 0 })]
    extensionGroups := [10]
    branches := []
    registry :=
      ((Registry.empty.setTabIdentity 3 1
          { appId := "a", versionId := "i", ty := PageType.editor, hostname := "h" } "u" 0).setTabIdentity 1 1
        { appId := "a", versionId := "j", ty := PageType.editor, hostname := "h" } "u" 0).setTabIdentity 2 1
        { appId := "a", versionId := "j", ty := PageType.editor, hostname := "h" } "u" 0
    holds := []
    groupingEnabled := true
    now := 5
    nextGroupId := 30 }

/-- A minimal state with one ungrouped tab and empty stores, used to
exercise the creation path of `findOrCreateGroup`. -/
def witnessStateC3 : SysState :=
  { tabs := [{ id := 7, windowId := 1, groupId := none, pinned := false }]
    groups := []
    mappings := []
    extensionGroups := []
    branches := []
    registry := Registry.empty
    holds := []
    groupingEnabled := true
    now := 0
    nextGroupId := 42 }

/-- The bucket of tab 7 under identity `("a", "v")` in window 1. -/
def witnessBucketC3 : TabBucket :=
  { windowId := 1, appId := "a", versionId := "v", tabs := [7], key := "a:v" }

/-! Generic lemmas about the JS `Map`/`Set` model. -/

theorem aget_aset {κ ν : Type} [DecidableEq κ] (m : List (κ × ν)) (k : κ) (v : ν) (q : κ) :
    aget (aset m k v) q = if q = k then some v else aget m q := by
  induction m with
  | nil =>
    simp only [aset, aget]
    by_cases h : k = q
    · rw [if_pos h, if_pos h.symm]
    · rw [if_neg h, if_neg (fun h2 : q = k => h h2.symm)]
  | cons p ps ih =>
    by_cases hp : p.1 = k
    · rw [show aset (p :: ps) k v = (k, v) :: ps by simp [aset, hp]]
      by_cases h : k = q
      · simp only [aget]
        rw [if_pos h, if_pos h.symm]
      · have hqk : ¬ q = k := fun h2 => h h2.symm
        have hpq : ¬ p.1 = q := fun h2 => h (hp.symm.trans h2)
        simp only [aget]
        rw [if_neg h, if_neg hqk, if_neg hpq]
    · rw [show aset (p :: ps) k v = p :: aset ps k v by simp [aset, hp]]
      simp only [aget, ih]
      by_cases hq : p.1 = q
      · have hqk : ¬ q = k := fun h2 => hp (hq.trans h2)
        simp only [if_pos hq, if_neg hqk]
      · simp only [if_neg hq]

theorem aget_adel {κ ν : Type} [DecidableEq κ] (m : List (κ × ν)) (k q : κ) :
    aget (adel m k) q = if q = k then none else aget m q := by
  induction m with
  | nil =>
    by_cases h : q = k <;> simp [adel, aget, h]
  | cons p ps ih =>
    by_cases hpk : p.1 = k
    · rw [show adel (p :: ps) k = adel ps k by simp [adel, hpk], ih]
      by_cases hq : q = k
      · simp [hq]
      · rw [if_neg hq, if_neg hq]
        simp only [aget]
        rw [if_neg (fun h2 : p.1 = q => hq (hpk.symm.trans h2).symm)]
    · rw [show adel (p :: ps) k = p :: adel ps k by simp [adel, hpk]]
      simp only [aget, ih]
      by_cases hq : p.1 = q
      · have hqk : ¬ q = k := fun h2 => hpk (hq.trans h2)
        simp only [if_pos hq, if_neg hqk]
      · simp only [if_neg hq]

theorem mem_keys_aset {κ ν : Type} [DecidableEq κ] (m : List (κ × ν)) (k : κ) (v : ν) (q : κ) :
    q ∈ (aset m k v).map Prod.fst ↔ q = k ∨ q ∈ m.map Prod.fst := by
  induction m with
  | nil => simp [aset, eq_comm]
  | cons p ps ih =>
    by_cases hpk : p.1 = k
    · rw [show aset (p :: ps) k v = (k, v) :: ps by simp [aset, hpk]]
      simp only [List.map_cons, List.mem_cons, ih]
      constructor
      · rintro (h | h)
        · exact Or.inl h
        · exact Or.inr (Or.inr h)
      · rintro (h | h | h)
        · exact Or.inl h
        · exact Or.inl (h.trans hpk)
        · exact Or.inr h
    · rw [show aset (p :: ps) k v = p :: aset ps k v by simp [aset, hpk]]
      simp only [List.map_cons, List.mem_cons, ih]
      tauto

theorem aget_mem {κ ν : Type} [DecidableEq κ] {m : List (κ × ν)} {k : κ} {v : ν}
    (h : aget m k = some v) : (k, v) ∈ m := by
  induction m with
  | nil => simp [aget] at h
  | cons p ps ih =>
    simp only [aget] at h
    by_cases hp : p.1 = k
    · rw [if_pos hp] at h
      have : p = (k, v) := by
        cases p
        simp only [Option.some.injEq] at h
        simp_all
      simp [this]
    · rw [if_neg hp] at h
      exact List.mem_cons_of_mem _ (ih h)

theorem nodupKeys_aset {κ ν : Type} [DecidableEq κ] {m : List (κ × ν)} (k : κ) (v : ν)
    (h : nodupKeys m) : nodupKeys (aset m k v) := by
  induction m with
  | nil => simp [aset, nodupKeys]
  | cons p ps ih =>
    simp only [nodupKeys, List.map_cons, List.nodup_cons] at h
    by_cases hpk : p.1 = k
    · rw [show aset (p :: ps) k v = (k, v) :: ps by simp [aset, hpk]]
      simp only [nodupKeys, List.map_cons, List.nodup_cons]
      exact ⟨hpk ▸ h.1, h.2⟩
    · rw [show aset (p :: ps) k v = p :: aset ps k v by simp [aset, hpk]]
      simp only [nodupKeys, List.map_cons, List.nodup_cons]
      refine ⟨fun hmem => ?_, ih h.2⟩
      rcases (mem_keys_aset ps k v p.1).mp hmem with h1 | h1
      · exact hpk h1
      · exact h.1 h1

theorem nodupKeys_adel {κ ν : Type} [DecidableEq κ] {m : List (κ × ν)} (k : κ)
    (h : nodupKeys m) : nodupKeys (adel m k) := by
  exact h.sublist (List.Sublist.map Prod.fst (List.filter_sublist m))

theorem aset_ne_nil {κ ν : Type} [DecidableEq κ] (m : List (κ × ν)) (k : κ) (v : ν) :
    aset m k v ≠ [] := by
  cases m with
  | nil => simp [aset]
  | cons p ps =>
    simp only [aset]
    split <;> simp

theorem mem_sadd (s : List Nat) (t x : Nat) : x ∈ sadd s t ↔ x ∈ s ∨ x = t := by
  by_cases h : s.contains t = true
  · have ht : t ∈ s := List.elem_iff.mp h
    simp only [sadd, if_pos h]
    constructor
    · exact Or.inl
    · rintro (hx | hx)
      · exact hx
      · exact hx ▸ ht
  · simp only [sadd, if_neg h]
    simp

theorem nodup_sadd {s : List Nat} (t : Nat) (h : s.Nodup) : (sadd s t).Nodup := by
  by_cases hc : s.contains t = true
  · simp only [sadd, if_pos hc]
    exact h
  · have ht : t ∉ s := fun hm => hc (List.elem_iff.mpr hm)
    simp only [sadd, if_neg hc]
    simp [List.nodup_append, h, ht]

theorem mem_sdel (s : List Nat) (t x : Nat) : x ∈ sdel s t ↔ x ∈ s ∧ x ≠ t := by
  simp [sdel, List.mem_filter]

theorem nodup_sdel {s : List Nat} (t : Nat) (h : s.Nodup) : (sdel s t).Nodup :=
  h.sublist (List.filter_sublist s)

/-- C8: `cleanupStaleGroups` keeps a durable mapping exactly when its
group is among the currently existing host groups and its `lastSeen`
is within the 24-hour horizon of the current time; it drops every other
mapping, and kept mappings are carried over unchanged (the result is a
sublist of the input). -/
theorem cleanupStaleGroups_keep_iff (mappings : List (Nat × GroupMapping))
    (existing : List Nat) (now : Int) :
    (cleanupStaleGroups mappings existing now).Sublist mappings ∧
    ∀ k m, ((k, m) ∈ cleanupStaleGroups mappings existing now ↔
      ((k, m) ∈ mappings ∧ k ∈ existing ∧ now - m.lastSeen ≤ MAX_AGE_MS)) := by
  refine ⟨List.filter_sublist _, fun k m => ?_⟩
  simp only [cleanupStaleGroups, List.mem_filter, Bool.and_eq_true, Bool.not_eq_true',
    decide_eq_false_iff_not, not_lt]
  constructor
  · rintro ⟨h1, h2, h3⟩
    exact ⟨h1, List.elem_iff.mp h2, h3⟩
  · rintro ⟨h1, h2, h3⟩
    exact ⟨h1, List.elem_iff.mpr h2, h3⟩

theorem cleanupStaleGroups_keep_iff_witness :
    (7, ({ appId := "a", versionId := "v", windowId := 1, lastSeen := 0 } : GroupMapping)) ∈
      cleanupStaleGroups [(7, { appId := "a", versionId := "v", windowId := 1, lastSeen := 0 })]
        [7] 10 := by
  have h := (cleanupStaleGroups_keep_iff
    [(7, { appId := "a", versionId := "v", windowId := 1, lastSeen := 0 })] [7] 10).2 7
    { appId := "a", versionId := "v", windowId := 1, lastSeen := 0 }
  exact h.mpr ⟨by simp, by simp, by decide⟩

/-- C10: two overlapping `setBranch` calls for the same
`(appId, versionId)` key are serialized by the per-key write queue, and
the serialized execution loses neither call's fields: the second write
merges over the first's result, so a field carried by either patch
survives into the final stored Branch Data (the second call winning
where both set the same field), and fields neither patch carries keep
their previously stored values. -/
theorem setBranch_serialized_merges_both (branches : List (String × BranchData))
    (a v : String) (p1 p2 : BranchPatch) (t1 t2 : Int) :
    ∃ b, aget (setBranchPairSerialized branches a v p1 p2 t1 t2) (a ++ ":" ++ v) = some b ∧
      b.appId = a ∧ b.versionId = v ∧ b.updatedAt = t2 ∧
      (∀ x, p2.name = some x → b.name = some x) ∧
      (∀ x, p2.name = none → p1.name = some x → b.name = some x) ∧
      (p2.name = none → p1.name = none →
        b.name = (aget branches (a ++ ":" ++ v)).bind BranchData.name) ∧
      (∀ x, p2.displayName = some x → b.displayName = some x) ∧
      (∀ x, p2.displayName = none → p1.displayName = some x → b.displayName = some x) ∧
      (p2.displayName = none → p1.displayName = none →
        b.displayName = (aget branches (a ++ ":" ++ v)).bind BranchData.displayName) ∧
      (∀ x, p2.color = some x → b.color = some x) ∧
      (∀ x, p2.color = none → p1.color = some x → b.color = some x) ∧
      (p2.color = none → p1.color = none →
        b.color = (aget branches (a ++ ":" ++ v)).bind BranchData.color) := by
  have hget : ∀ (m : List (String × BranchData)) (x : BranchData),
      aget (aset m (a ++ ":" ++ v) x) (a ++ ":" ++ v) = some x := by
    intro m x
    rw [aget_aset, if_pos rfl]
  refine ⟨mergeBranch (some (mergeBranch (aget branches (a ++ ":" ++ v)) a v p1 t1)) a v p2 t2,
    ?_, rfl, rfl, rfl, ?_, ?_, ?_, ?_, ?_, ?_, ?_, ?_, ?_⟩
  · simp only [setBranchPairSerialized, doSetBranch, hget]
  · intro x hx
    simp [mergeBranch, hx]
  · intro x h2 h1
    simp [mergeBranch, h2, h1]
  · intro h2 h1
    simp [mergeBranch, h2, h1]
  · intro x hx
    simp [mergeBranch, hx]
  · intro x h2 h1
    simp [mergeBranch, h2, h1]
  · intro h2 h1
    simp [mergeBranch, h2, h1]
  · intro x hx
    simp [mergeBranch, hx]
  · intro x h2 h1
    simp [mergeBranch, h2, h1]
  · intro h2 h1
    simp [mergeBranch, h2, h1]

theorem setBranch_serialized_merges_both_witness :
    ∃ b, aget (setBranchPairSerialized [] "acme" "dev"
        { name := some "scraped" } { displayName := some "My Name" } 1 2) "acme:dev" = some b ∧
      b.name = some "scraped" ∧ b.displayName = some "My Name" := by
  obtain ⟨b, hb, _, _, _, _, hn, _, hd, _, _, _, _, _⟩ :=
    setBranch_serialized_merges_both [] "acme" "dev"
      { name := some "scraped" } { displayName := some "My Name" } 1 2
  exact ⟨b, hb, hn "scraped" rfl rfl, hd "My Name" rfl⟩

/-! Retry-policy lemmas (C7). -/

theorem retryAux_ok {α : Type} (res : Nat → OpResult α) (jitter : Nat → ℚ)
    (attempt remaining : Nat) (v : α) (h : res attempt = OpResult.ok v) :
    retryAux res jitter attempt remaining = (OpResult.ok v, []) := by
  cases remaining with
  | zero =>
    rw [retryAux]
    simp [h]
  | succ r =>
    rw [retryAux]
    simp [h]

theorem retryAux_err_stop {α : Type} (res : Nat → OpResult α) (jitter : Nat → ℚ)
    (attempt : Nat) (m : String) (hr : res attempt = OpResult.err m)
    (ht : isTabEditingRestriction m = false) (remaining : Nat) :
    retryAux res jitter attempt remaining = (OpResult.err m, []) := by
  cases remaining with
  | zero =>
    rw [retryAux]
    simp [hr, ht]
  | succ r =>
    rw [retryAux]
    simp [hr, ht]

theorem retryAux_zero_err {α : Type} (res : Nat → OpResult α) (jitter : Nat → ℚ)
    (attempt : Nat) (m : String) (hr : res attempt = OpResult.err m) :
    retryAux res jitter attempt 0 = (OpResult.err m, []) := by
  rw [retryAux]
  simp only [hr]
  split <;> rfl

theorem retryAux_succ_trans {α : Type} (res : Nat → OpResult α) (jitter : Nat → ℚ)
    (attempt : Nat) (m : String) (hr : res attempt = OpResult.err m)
    (ht : isTabEditingRestriction m = true) (r : Nat) :
    retryAux res jitter attempt (r + 1) =
      ((retryAux res jitter (attempt + 1) r).1,
       (2 ^ attempt * 100 + jitter attempt) :: (retryAux res jitter (attempt + 1) r).2) := by
  rw [retryAux]
  simp [hr, ht]

theorem retryAux_len {α : Type} (res : Nat → OpResult α) (jitter : Nat → ℚ) :
    ∀ remaining attempt, (retryAux res jitter attempt remaining).2.length ≤ remaining := by
  intro remaining
  induction remaining with
  | zero =>
    intro attempt
    cases hr : res attempt with
    | ok v =>
      rw [retryAux_ok res jitter attempt 0 v hr]
      simp
    | err m =>
      rw [retryAux_zero_err res jitter attempt m hr]
      simp
  | succ r ih =>
    intro attempt
    cases hr : res attempt with
    | ok v =>
      rw [retryAux_ok res jitter attempt (r + 1) v hr]
      simp
    | err m =>
      cases ht : isTabEditingRestriction m with
      | true =>
        rw [retryAux_succ_trans res jitter attempt m hr ht r]
        simpa using Nat.succ_le_succ (ih (attempt + 1))
      | false =>
        rw [retryAux_err_stop res jitter attempt m hr ht (r + 1)]
        simp

theorem retryAux_delays {α : Type} (res : Nat → OpResult α) (jitter : Nat → ℚ) :
    ∀ remaining attempt i, i < (retryAux res jitter attempt remaining).2.length →
      (retryAux res jitter attempt remaining).2[i]? =
        some (2 ^ (attempt + i) * 100 + jitter (attempt + i)) := by
  intro remaining
  induction remaining with
  | zero =>
    intro attempt i h
    have := retryAux_len res jitter 0 attempt
    omega
  | succ r ih =>
    intro attempt i h
    cases hr : res attempt with
    | ok v =>
      rw [retryAux_ok res jitter attempt (r + 1) v hr] at h
      simp at h
    | err m =>
      cases ht : isTabEditingRestriction m with
      | true =>
        rw [retryAux_succ_trans res jitter attempt m hr ht r] at h ⊢
        cases i with
        | zero => simp
        | succ j =>
          simp only [List.length_cons] at h
          have hj : j < (retryAux res jitter (attempt + 1) r).2.length := by omega
          have hij := ih (attempt + 1) j hj
          simp only [List.getElem?_cons_succ]
          rw [show attempt + (j + 1) = attempt + 1 + j by omega]
          exact hij
      | false =>
        rw [retryAux_err_stop res jitter attempt m hr ht (r + 1)] at h
        simp at h

theorem retryAux_err {α : Type} (res : Nat → OpResult α) (jitter : Nat → ℚ) :
    ∀ remaining attempt m, (retryAux res jitter attempt remaining).1 = OpResult.err m →
      res (attempt + (retryAux res jitter attempt remaining).2.length) = OpResult.err m ∧
      (∀ i, i < (retryAux res jitter attempt remaining).2.length →
        ∃ mi, res (attempt + i) = OpResult.err mi ∧ isTabEditingRestriction mi = true) ∧
      (isTabEditingRestriction m = true →
        (retryAux res jitter attempt remaining).2.length = remaining) := by
  intro remaining
  induction remaining with
  | zero =>
    intro attempt m hm
    cases hr : res attempt with
    | ok v =>
      rw [retryAux_ok res jitter attempt 0 v hr] at hm
      simp at hm
    | err m0 =>
      rw [retryAux_zero_err res jitter attempt m0 hr] at hm ⊢
      simp only at hm
      cases hm
      refine ⟨by simpa using hr, by simp, fun _ => rfl⟩
  | succ r ih =>
    intro attempt m hm
    cases hr : res attempt with
    | ok v =>
      rw [retryAux_ok res jitter attempt (r + 1) v hr] at hm
      simp at hm
    | err m0 =>
      cases ht : isTabEditingRestriction m0 with
      | true =>
        rw [retryAux_succ_trans res jitter attempt m0 hr ht r] at hm ⊢
        simp only at hm
        obtain ⟨ha, hb, hc⟩ := ih (attempt + 1) m hm
        refine ⟨?_, ?_, ?_⟩
        · simp only [List.length_cons]
          rw [show attempt + ((retryAux res jitter (attempt + 1) r).2.length + 1) =
            attempt + 1 + (retryAux res jitter (attempt + 1) r).2.length by omega]
          exact ha
        · intro i hi
          cases i with
          | zero => exact ⟨m0, by simpa using hr, ht⟩
          | succ j =>
            simp only [List.length_cons] at hi
            have hj : j < (retryAux res jitter (attempt + 1) r).2.length := by omega
            obtain ⟨mi, hmi, hti⟩ := hb j hj
            refine ⟨mi, ?_, hti⟩
            rw [show attempt + (j + 1) = attempt + 1 + j by omega]
            exact hmi
        · intro htm
          simp [hc htm]
      | false =>
        rw [retryAux_err_stop res jitter attempt m0 hr ht (r + 1)] at hm ⊢
        simp only at hm
        cases hm
        refine ⟨by simpa using hr, by simp, fun htm => ?_⟩
        rw [htm] at ht
        cases ht

/-- C7: `retryTabOperation` returns an immediate success untouched;
re-throws a non-transient first error with no retry; sleeps at most 3
backoff delays, the i-th being exactly `2^i * 100` ms (100, 200, 400)
plus that attempt's jitter draw, hence in `[2^i * 100, 2^i * 100 + 50)`;
and when it ends in an error, the thrown error is the one raised by the
attempt after the last delay, every retried attempt had failed with the
transient tab-editing restriction, and a transient final error is
thrown only with all 3 retries used (the last error re-raised on
exhaustion). -/
theorem retryTabOperation_spec {α : Type} (res : Nat → OpResult α) (jitter : Nat → ℚ)
    (hj : ∀ n, 0 ≤ jitter n ∧ jitter n < 50) :
    (∀ v, res 0 = OpResult.ok v → retryTabOperation res jitter = (OpResult.ok v, [])) ∧
    (∀ m, res 0 = OpResult.err m → isTabEditingRestriction m = false →
      retryTabOperation res jitter = (OpResult.err m, [])) ∧
    (retryTabOperation res jitter).2.length ≤ 3 ∧
    (∀ i, i < (retryTabOperation res jitter).2.length →
      (retryTabOperation res jitter).2[i]? = some (2 ^ i * 100 + jitter i) ∧
      2 ^ i * 100 ≤ 2 ^ i * 100 + jitter i ∧ 2 ^ i * 100 + jitter i < 2 ^ i * 100 + 50) ∧
    (∀ m, (retryTabOperation res jitter).1 = OpResult.err m →
      res (retryTabOperation res jitter).2.length = OpResult.err m ∧
      (∀ i, i < (retryTabOperation res jitter).2.length →
        ∃ mi, res i = OpResult.err mi ∧ isTabEditingRestriction mi = true) ∧
      (isTabEditingRestriction m = true → (retryTabOperation res jitter).2.length = 3)) := by
  refine ⟨?_, ?_, ?_, ?_, ?_⟩
  · intro v hv
    exact retryAux_ok res jitter 0 3 v hv
  · intro m hm hnt
    exact retryAux_err_stop res jitter 0 m hm hnt 3
  · exact retryAux_len res jitter 3 0
  · intro i h
    have hd := retryAux_delays res jitter 3 0 i h
    rw [Nat.zero_add] at hd
    exact ⟨hd, by linarith [(hj i).1], by linarith [(hj i).2]⟩
  · intro m hm
    obtain ⟨ha, hb, hc⟩ := retryAux_err res jitter 3 0 m hm
    rw [Nat.zero_add] at ha
    refine ⟨ha, fun i hi => ?_, hc⟩
    obtain ⟨mi, hmi, hti⟩ := hb i hi
    rw [Nat.zero_add] at hmi
    exact ⟨mi, hmi, hti⟩

theorem retryTabOperation_spec_witness :
    retryTabOperation (fun _ => (OpResult.err "boom" : OpResult Unit)) (fun _ => (0 : ℚ)) =
      (OpResult.err "boom", []) := by
  have h := retryTabOperation_spec (fun _ => (OpResult.err "boom" : OpResult Unit))
    (fun _ => (0 : ℚ)) (fun n => ⟨by norm_num, by norm_num⟩)
  exact h.2.1 "boom" rfl (by decide)

/-! Title computation (C1). -/

theorem reserved_cases {v : String} {c : Color} (h : getReservedColor v = some c) :
    v = "live" ∨ v = "test" := by
  unfold getReservedColor at h
  split_ifs at h with h1 h2
  · exact Or.inl h1
  · exact Or.inr h2

theorem isReservedVersion_false_iff {v : String} :
    isReservedVersion v = false ↔ getReservedColor v = none := by
  unfold isReservedVersion
  cases h : getReservedColor v <;> simp [h]

/-- C1 (amended): the title priority of `computeGroupTitle`. A
requested, nonempty `displayName` is returned verbatim with no app
suffix; otherwise a reserved version id yields its capitalized label,
else a nonempty scraped name is used — except that a scraped name equal
to a version id flagged by `shouldCleanVersionId` is replaced by the
cleaned-up version id — else the raw version id, cleaned up exactly
when `shouldCleanVersionId` flags it (empty/blank, or over-threshold
hex-like); in all non-`displayName` cases the label receives the
`" | appId"` suffix exactly when the window is multi-app, and
`isMultiAppWindow` holds exactly when the window's registered tabs span
more than one distinct app. -/
theorem computeGroupTitle_priority (maxLen : Nat) (a v : String) (inc : Bool)
    (branch : Option BranchData) (multi : Bool) :
    (∀ d, inc = true → strTruthy (branch.bind BranchData.displayName) = some d →
      computeGroupTitle maxLen a v inc branch multi = d) ∧
    ((inc = false ∨ strTruthy (branch.bind BranchData.displayName) = none) →
      isReservedVersion v = true →
      computeGroupTitle maxLen a v inc branch multi =
        (if multi = true then capitalizeFirst v ++ " | " ++ a else capitalizeFirst v)) ∧
    (∀ n, (inc = false ∨ strTruthy (branch.bind BranchData.displayName) = none) →
      isReservedVersion v = false →
      strTruthy (branch.bind BranchData.name) = some n →
      computeGroupTitle maxLen a v inc branch multi =
        (if multi = true
         then (if n = v ∧ shouldCleanVersionId maxLen v = true
               then cleanVersionIdForDisplay maxLen v else n) ++ " | " ++ a
         else (if n = v ∧ shouldCleanVersionId maxLen v = true
               then cleanVersionIdForDisplay maxLen v else n))) ∧
    ((inc = false ∨ strTruthy (branch.bind BranchData.displayName) = none) →
      isReservedVersion v = false →
      strTruthy (branch.bind BranchData.name) = none →
      computeGroupTitle maxLen a v inc branch multi =
        (if multi = true
         then (if shouldCleanVersionId maxLen v = true
               then cleanVersionIdForDisplay maxLen v else v) ++ " | " ++ a
         else (if shouldCleanVersionId maxLen v = true
               then cleanVersionIdForDisplay maxLen v else v))) ∧
    (∀ r w, isMultiAppWindow r w = true ↔ 1 < (r.getWindowApps w).length) := by
  have hnone : (inc = false ∨ strTruthy (branch.bind BranchData.displayName) = none) →
      (if inc = true then strTruthy (branch.bind BranchData.displayName) else none) = none := by
    rintro (h | h)
    · simp [h]
    · simp [h]
  refine ⟨?_, ?_, ?_, ?_, ?_⟩
  · intro d hinc hd
    simp [computeGroupTitle, hinc, hd]
  · intro hno hres
    obtain ⟨c, hc⟩ := Option.isSome_iff_exists.mp hres
    have hcap : ¬ capitalizeFirst v = v := by
      rcases reserved_cases hc with rfl | rfl <;> decide
    cases multi <;> simp [computeGroupTitle, hnone hno, hc, hcap]
  · intro n hno hres hn
    have hgr : getReservedColor v = none := isReservedVersion_false_iff.mp hres
    cases multi with
    | true =>
      simp only [computeGroupTitle, hnone hno, hgr, hn]
      by_cases h1 : n = v
      · by_cases h2 : shouldCleanVersionId maxLen v = true
        · simp [h1, h2]
        · simp [h1, h2]
      · simp [h1]
    | false =>
      simp only [computeGroupTitle, hnone hno, hgr, hn]
      by_cases h1 : n = v
      · by_cases h2 : shouldCleanVersionId maxLen v = true
        · simp [h1, h2]
        · simp [h1, h2]
      · simp [h1]
  · intro hno hres hn
    have hgr : getReservedColor v = none := isReservedVersion_false_iff.mp hres
    cases multi with
    | true =>
      simp only [computeGroupTitle, hnone hno, hgr, hn]
      by_cases h2 : shouldCleanVersionId maxLen v = true
      · simp [h2]
      · simp [h2]
    | false =>
      simp only [computeGroupTitle, hnone hno, hgr, hn]
      by_cases h2 : shouldCleanVersionId maxLen v = true
      · simp [h2]
      · simp [h2]
  · intro r w
    simp [isMultiAppWindow]

theorem computeGroupTitle_priority_witness :
    computeGroupTitle 20 "acme" "test" true
      (some { appId := "acme", versionId := "test", name := some "bar",
              displayName := some "Foo", updatedAt := 0 }) true = "Foo" ∧
    computeGroupTitle 20 "acme" "test" true
      (some { appId := "acme", versionId := "test", name := some "bar", updatedAt := 0 })
      false = "Test" ∧
    computeGroupTitle 20 "acme" "test" true
      (some { appId := "acme", versionId := "test", name := some "bar", updatedAt := 0 })
      true = "Test | acme" := by
  refine ⟨?_, ?_, ?_⟩
  · exact (computeGroupTitle_priority 20 "acme" "test" true
      (some { appId := "acme", versionId := "test", name := some "bar",
              displayName := some "Foo", updatedAt := 0 }) true).1 "Foo" rfl rfl
  · exact ((computeGroupTitle_priority 20 "acme" "test" true
      (some { appId := "acme", versionId := "test", name := some "bar", updatedAt := 0 })
      false).2.1 (Or.inr rfl) rfl).trans (by decide)
  · exact ((computeGroupTitle_priority 20 "acme" "test" true
      (some { appId := "acme", versionId := "test", name := some "bar", updatedAt := 0 })
      true).2.1 (Or.inr rfl) rfl).trans (by decide)

/-- Counterexample to C1 as stated: with a nonempty scraped name the
claim demands the scraped name as the label, but when the scraped name
equals an over-threshold hex-like version id, `computeGroupTitle`
cleans the label (the `versionLabel === versionId` guard also fires in
this case), producing the truncation instead of the scraped name. -/
theorem computeGroupTitle_scraped_cex :
    cexBranchC1.displayName = none ∧
    cexBranchC1.name = some longHexA ∧
    isReservedVersion longHexA = false ∧
    computeGroupTitle 20 "app1" longHexA true (some cexBranchC1) false = "aaaaaaaa..." ∧
    ¬ computeGroupTitle 20 "app1" longHexA true (some cexBranchC1) false = longHexA := by
  refine ⟨rfl, rfl, rfl, by decide, by decide⟩

/-! Rename-echo suppression (C4). -/

/-- C4: `handleUserGroupRename` writes nothing when the observed title
equals the automatic title recomputed with `displayName` ignored, and
otherwise stores the observed title verbatim as the branch's
`displayName` with a fresh `updatedAt`, preserving the branch's other
fields (defaulting a missing branch). -/
theorem handleUserGroupRename_spec (maxLen : Nat) (a v : String) (multi : Bool)
    (branch : Option BranchData) (newTitle : String) (now : Int) :
    (newTitle = computeGroupTitle maxLen a v false branch multi →
      handleUserGroupRename maxLen a v multi branch newTitle now = none) ∧
    (newTitle ≠ computeGroupTitle maxLen a v false branch multi →
      ∃ b, handleUserGroupRename maxLen a v multi branch newTitle now = some b ∧
        b.displayName = some newTitle ∧ b.updatedAt = now ∧
        b.name = branch.bind BranchData.name ∧
        b.color = branch.bind BranchData.color ∧
        b.appId = (branch.map BranchData.appId).getD a ∧
        b.versionId = (branch.map BranchData.versionId).getD v) := by
  constructor
  · intro h
    simp [handleUserGroupRename, h]
  · intro h
    cases branch with
    | none =>
      refine ⟨{ createDefaultBranch a v now with displayName := some newTitle, updatedAt := now },
        by simp [handleUserGroupRename, h], ?_, ?_, ?_, ?_, ?_, ?_⟩ <;> simp [createDefaultBranch]
    | some b0 =>
      exact ⟨{ b0 with displayName := some newTitle, updatedAt := now },
        by simp [handleUserGroupRename, h], rfl, rfl, rfl, rfl, rfl, rfl⟩

theorem handleUserGroupRename_spec_witness :
    handleUserGroupRename 20 "acme" "dev" false none "dev" 3 = none ∧
    ∃ b, handleUserGroupRename 20 "acme" "dev" false none "My Branch" 3 = some b ∧
      b.displayName = some "My Branch" := by
  constructor
  · exact (handleUserGroupRename_spec 20 "acme" "dev" false none "dev" 3).1 (by decide)
  · obtain ⟨b, hb, hd, _⟩ :=
      (handleUserGroupRename_spec 20 "acme" "dev" false none "My Branch" 3).2 (by decide)
    exact ⟨b, hb, hd⟩

/-! Reserved-color pinning and title-only refresh (C2). -/

theorem applyGroupUpdatesState_color_none (s : SysState) (g : Nat) (u : UpdateProperties)
    (hu : u.color = none) :
    (applyGroupUpdatesState s g u).groups.map (fun gr => (gr.id, gr.color)) =
      s.groups.map (fun gr => (gr.id, gr.color)) := by
  unfold applyGroupUpdatesState
  simp only [List.map_map]
  apply List.map_congr_left
  intro gr hgr
  by_cases hid : gr.id = g <;> simp [hid, hu, Function.comp]

/-- C2: on the creation path with no stored Branch-Data color, version
id `live` gets the fixed green (and `test` blue) applied and persisted
(`persistBranchColor` stores exactly that color); and the automatic
title-refresh path never writes a color: the update set computed by
`updateGroupProperties` always has an empty color field, applying it
leaves the group's color unchanged, and the state-level refresh leaves
every group's color intact. -/
theorem reserved_color_pinning :
    (∀ eb : Option BranchData, eb.bind BranchData.color = none →
      creationColorAction eb "live" = (some Color.green, true) ∧
      creationColorAction eb "test" = (some Color.blue, true) ∧
      (∀ a now, (persistBranchColor eb a "live" Color.green now).color = some Color.green) ∧
      (∀ a now, (persistBranchColor eb a "test" Color.blue now).color = some Color.blue)) ∧
    (∀ maxLen a v branch multi g,
      (updateGroupPropertiesUpdates maxLen a v branch multi g).color = none ∧
      (applyUpdateProperties g (updateGroupPropertiesUpdates maxLen a v branch multi g)).color =
        g.color) ∧
    (∀ maxLen s gid b bd,
      (updateGroupPropertiesState maxLen s gid b bd).groups.map (fun gr => (gr.id, gr.color)) =
        s.groups.map (fun gr => (gr.id, gr.color))) := by
  refine ⟨?_, ?_, ?_⟩
  · intro eb heb
    refine ⟨by simp [creationColorAction, heb, getReservedColor],
            by simp [creationColorAction, heb, getReservedColor], ?_, ?_⟩ <;>
      (intro a now; cases eb <;> simp [persistBranchColor, createDefaultBranch])
  · intro maxLen a v branch multi g
    constructor
    · simp [updateGroupPropertiesUpdates, prepareGroupUpdates]
    · simp [applyUpdateProperties, updateGroupPropertiesUpdates, prepareGroupUpdates]
  · intro maxLen s gid b bd
    have key : ∀ u : UpdateProperties, u.color = none →
        ((if u.title.isSome || u.color.isSome then applyGroupUpdatesState s gid u
          else s).groups.map (fun gr => (gr.id, gr.color)) =
          s.groups.map (fun gr => (gr.id, gr.color))) := by
      intro u hu
      split
      · exact applyGroupUpdatesState_color_none s gid u hu
      · rfl
    unfold updateGroupPropertiesState
    cases hg : getGroup s gid with
    | none => rfl
    | some grp =>
      exact key _ (by simp [updateGroupPropertiesUpdates, prepareGroupUpdates])

theorem reserved_color_pinning_witness :
    creationColorAction none "live" = (some Color.green, true) ∧
    (persistBranchColor none "acme" "live" Color.green 7).color = some Color.green := by
  have h := reserved_color_pinning
  exact ⟨(h.1 none rfl).1, (h.1 none rfl).2.2.1 "acme" 7⟩

/-! Identity-change handling (C6). -/

/-- C6 (amended): `handleTabIdentityChange` raises an error on a failed
verified move to a resolved target and re-throws exceptions from the
tab read or from an escaping group-resolution failure — but it also
returns normally when `findOrCreateGroup` swallows a creation failure
into `null` (the `targetGroupId && ...` guard treats a null target like
"no move needed"), and when the tab reports no window. Precisely:
the call succeeds iff the tab read succeeded and either the window id
is falsy, or the resolution yielded no target, or it yielded a target
that is falsy, already contains the tab, or into which the verified
move succeeded; the verified move succeeds iff the mutation call
succeeded and the re-read shows the tab in the target group; and each
failure shape produces the stated error. -/
theorem handleTabIdentityChange_spec (hold : Option ManualHold) (na nv : String)
    (tabRes : OpResult TabView) (focRes : OpResult (Option Nat))
    (moveCallRes : OpResult Unit) (verifyRes : OpResult (Option Nat)) :
    ((handleTabIdentityChange hold na nv tabRes focRes moveCallRes verifyRes).2 =
        OpResult.ok () ↔
      ∃ tab, tabRes = OpResult.ok tab ∧
        (tab.windowId = 0 ∨ focRes = OpResult.ok none ∨
         ∃ target, focRes = OpResult.ok (some target) ∧
           (target = 0 ∨ tab.groupId = some target ∨
            moveSingleTabToGroupOutcome moveCallRes verifyRes target = true))) ∧
    (∀ target, moveSingleTabToGroupOutcome moveCallRes verifyRes target = true ↔
      moveCallRes = OpResult.ok () ∧ verifyRes = OpResult.ok (some target)) ∧
    (∀ e, tabRes = OpResult.err e →
      (handleTabIdentityChange hold na nv tabRes focRes moveCallRes verifyRes).2 =
        OpResult.err e) ∧
    (∀ tab e, tabRes = OpResult.ok tab → tab.windowId ≠ 0 → focRes = OpResult.err e →
      (handleTabIdentityChange hold na nv tabRes focRes moveCallRes verifyRes).2 =
        OpResult.err e) ∧
    (∀ tab target, tabRes = OpResult.ok tab → tab.windowId ≠ 0 →
      focRes = OpResult.ok (some target) → target ≠ 0 → tab.groupId ≠ some target →
      moveSingleTabToGroupOutcome moveCallRes verifyRes target = false →
      (handleTabIdentityChange hold na nv tabRes focRes moveCallRes verifyRes).2 =
        OpResult.err "Physical tab move failed") := by
  refine ⟨?_, ?_, ?_, ?_, ?_⟩
  · constructor
    · intro h
      cases tabRes with
      | err e => simp [handleTabIdentityChange] at h
      | ok tab =>
        refine ⟨tab, rfl, ?_⟩
        by_cases hw : tab.windowId = 0
        · exact Or.inl hw
        · cases focRes with
          | err e => simp [handleTabIdentityChange, hw] at h
          | ok tgt =>
            cases tgt with
            | none => exact Or.inr (Or.inl rfl)
            | some target =>
              refine Or.inr (Or.inr ⟨target, rfl, ?_⟩)
              by_cases h0 : target = 0
              · exact Or.inl h0
              · by_cases hg : tab.groupId = some target
                · exact Or.inr (Or.inl hg)
                · refine Or.inr (Or.inr ?_)
                  by_cases hm : moveSingleTabToGroupOutcome moveCallRes verifyRes target = true
                  · exact hm
                  · simp [handleTabIdentityChange, hw, h0, hg, hm] at h
    · rintro ⟨tab, htab, hcase⟩
      subst htab
      rcases hcase with hw | hfoc | ⟨target, hfoc, hcase⟩
      · simp [handleTabIdentityChange, hw]
      · subst hfoc
        by_cases hw : tab.windowId = 0 <;> simp [handleTabIdentityChange, hw]
      · subst hfoc
        by_cases hw : tab.windowId = 0
        · simp [handleTabIdentityChange, hw]
        · rcases hcase with h0 | hg | hm
          · simp [handleTabIdentityChange, hw, h0]
          · simp [handleTabIdentityChange, hw, hg]
          · by_cases h0 : target = 0
            · simp [handleTabIdentityChange, hw, h0]
            · by_cases hg : tab.groupId = some target
              · simp [handleTabIdentityChange, hw, h0, hg]
              · simp [handleTabIdentityChange, hw, h0, hg, hm]
  · intro target
    cases moveCallRes with
    | err e => simp [moveSingleTabToGroupOutcome]
    | ok u =>
      cases verifyRes with
      | err e => simp [moveSingleTabToGroupOutcome]
      | ok g => simp [moveSingleTabToGroupOutcome]
  · intro e he
    subst he
    simp [handleTabIdentityChange]
  · intro tab e htab hw hfoc
    subst htab
    subst hfoc
    simp [handleTabIdentityChange, hw]
  · intro tab target htab hw hfoc h0 hg hm
    subst htab
    subst hfoc
    simp [handleTabIdentityChange, hw, h0, hg, hm]

theorem handleTabIdentityChange_spec_witness :
    (handleTabIdentityChange none "a" "v" (OpResult.ok { windowId := 1, groupId := some 4 })
      (OpResult.ok (some 9)) (OpResult.err "tab cannot be edited right now")
      (OpResult.ok (some 4))).2 = OpResult.err "Physical tab move failed" := by
  have h := handleTabIdentityChange_spec none "a" "v"
    (OpResult.ok { windowId := 1, groupId := some 4 }) (OpResult.ok (some 9))
    (OpResult.err "tab cannot be edited right now") (OpResult.ok (some 4))
  exact h.2.2.2.2 { windowId := 1, groupId := some 4 } 9 rfl (by decide) rfl (by decide)
    (by decide) (by decide)

/-- Counterexample to C6 as stated: `findOrCreateGroup` swallowed a
creation failure into `null` (`OpResult.ok none`), a move was needed
(the tab sits in group 5 and no group exists for the new identity),
nothing was moved or verified — yet the handler returns normally
instead of raising an error. -/
theorem handleTabIdentityChange_null_target_cex :
    handleTabIdentityChange none "a" "v" (OpResult.ok { windowId := 1, groupId := some 5 })
      (OpResult.ok none) (OpResult.err "creation failed") (OpResult.ok (some 5)) =
      (none, OpResult.ok ()) := by
  decide

/-! Registry lemmas (C9, shared with C5). -/

theorem aget_eq_none_iff {κ ν : Type} [DecidableEq κ] (m : List (κ × ν)) (k : κ) :
    aget m k = none ↔ k ∉ m.map Prod.fst := by
  induction m with
  | nil => simp [aget]
  | cons p ps ih =>
    simp only [aget, List.map_cons, List.mem_cons]
    by_cases hp : p.1 = k
    · simp [hp]
    · simp only [if_neg hp, ih]
      constructor
      · intro h
        rintro (h2 | h2)
        · exact hp h2.symm
        · exact h h2
      · intro h
        exact fun h2 => h (Or.inr h2)

theorem adel_eq_nil_imp {κ ν : Type} [DecidableEq κ] {m : List (κ × ν)} {k : κ}
    (h : adel m k = []) (q : κ) (hq : ¬ q = k) : aget m q = none := by
  rw [aget_eq_none_iff]
  intro hmem
  obtain ⟨x, hxm, hxq⟩ := List.mem_map.mp hmem
  have hx : x ∈ adel m k := List.mem_filter.mpr ⟨hxm, by simp [hxq ▸ hq]⟩
  rw [h] at hx
  simp at hx

theorem sadd_ne_nil (s : List Nat) (t : Nat) : sadd s t ≠ [] := by
  unfold sadd
  split
  · intro he
    subst he
    simp_all
  · simp

theorem nGet_mem {n : Nested} {w : Nat} {a v : String} {t : Nat} (h : t ∈ nGet n w a v) :
    ∃ wm am vs, aget n w = some wm ∧ aget wm a = some am ∧ aget am v = some vs ∧ t ∈ vs := by
  unfold nGet at h
  cases hw : aget n w with
  | none =>
    rw [hw] at h
    simp [aget] at h
  | some wm =>
    rw [hw] at h
    simp only [Option.getD_some] at h
    cases ha : aget wm a with
    | none =>
      rw [ha] at h
      simp [aget] at h
    | some am =>
      rw [ha] at h
      simp only [Option.getD_some] at h
      cases hv : aget am v with
      | none =>
        rw [hv] at h
        simp at h
      | some vs =>
        rw [hv] at h
        simp only [Option.getD_some] at h
        exact ⟨wm, am, vs, rfl, ha, hv, h⟩

theorem nGet_chain {n : Nested} {w : Nat} {a v : String} {wm am vs}
    (hw : aget n w = some wm) (ha : aget wm a = some am) (hv : aget am v = some vs) :
    nGet n w a v = vs := by
  unfold nGet
  rw [hw, Option.getD_some, ha, Option.getD_some]
  show (aget am v).getD [] = vs
  rw [hv, Option.getD_some]

theorem nGet_nodup {n : Nested} (h : NestedOK n) (w : Nat) (a v : String) :
    (nGet n w a v).Nodup := by
  unfold nGet
  cases hw : aget n w with
  | none => simp [aget]
  | some wm =>
    simp only [Option.getD_some]
    cases ha : aget wm a with
    | none => simp [aget]
    | some am =>
      simp only [Option.getD_some]
      cases hv : aget am v with
      | none => simp
      | some vs =>
        simp only [Option.getD_some]
        exact (((h.2 w wm hw).2.2 a am ha).2.2 v vs hv).1

theorem removeTab_flat_none (r : Registry) (t : Nat) :
    aget (r.removeTab t).tabIndex t = none := by
  unfold Registry.removeTab
  cases hflat : aget r.tabIndex t with
  | none => exact hflat
  | some e =>
    simp only
    rw [aget_adel, if_pos rfl]

theorem nGet_eq_aGet2 (n : Nested) (w : Nat) (a v : String) :
    nGet n w a v = aGet2 ((aget n w).getD []) a v := rfl

theorem aGet1_nil (v : String) : aGet1 [] v = [] := rfl

theorem aGet2_nil (a v : String) : aGet2 [] a v = [] := rfl

theorem aGet1_aset (am : List (String × List Nat)) (V : String) (z : List Nat) (v : String) :
    aGet1 (aset am V z) v = if v = V then z else aGet1 am v := by
  unfold aGet1
  rw [aget_aset]
  split_ifs <;> rfl

theorem aGet1_adel (am : List (String × List Nat)) (V v : String) :
    aGet1 (adel am V) v = if v = V then [] else aGet1 am v := by
  unfold aGet1
  rw [aget_adel]
  split_ifs <;> rfl

theorem aGet2_aset (wm : List (String × List (String × List Nat))) (A : String)
    (Y : List (String × List Nat)) (a v : String) :
    aGet2 (aset wm A Y) a v = if a = A then aGet1 Y v else aGet2 wm a v := by
  unfold aGet2
  rw [aget_aset]
  split_ifs <;> rfl

theorem aGet2_adel (wm : List (String × List (String × List Nat))) (A a v : String) :
    aGet2 (adel wm A) a v = if a = A then [] else aGet2 wm a v := by
  unfold aGet2
  rw [aget_adel]
  split_ifs <;> rfl

theorem nGet_aset (n : Nested) (W : Nat) (X : List (String × List (String × List Nat)))
    (w : Nat) (a v : String) :
    nGet (aset n W X) w a v = if w = W then aGet2 X a v else nGet n w a v := by
  rw [nGet_eq_aGet2, aget_aset, nGet_eq_aGet2]
  split_ifs <;> rfl

theorem nGet_adel (n : Nested) (W w : Nat) (a v : String) :
    nGet (adel n W) w a v = if w = W then [] else nGet n w a v := by
  rw [nGet_eq_aGet2, aget_adel, nGet_eq_aGet2]
  split_ifs <;> rfl

theorem AmOK_aset {am : List (String × List Nat)} {V : String} {z : List Nat}
    (h : AmOK am) (hz : z.Nodup) (hne : z ≠ []) : AmOK (aset am V z) := by
  refine ⟨nodupKeys_aset V z h.1, aset_ne_nil am V z, fun v vs hget => ?_⟩
  rw [aget_aset] at hget
  split_ifs at hget with hv
  · cases hget
    exact ⟨hz, hne⟩
  · exact h.2.2 v vs hget

theorem AmOK_adel {am : List (String × List Nat)} {V : String}
    (h : AmOK am) (hne : adel am V ≠ []) : AmOK (adel am V) := by
  refine ⟨nodupKeys_adel V h.1, hne, fun v vs hget => ?_⟩
  rw [aget_adel] at hget
  split_ifs at hget with hv
  exact h.2.2 v vs hget

theorem WmOK_aset {wm : List (String × List (String × List Nat))} {A : String}
    {Y : List (String × List Nat)} (h : WmOK wm) (hY : AmOK Y) : WmOK (aset wm A Y) := by
  refine ⟨nodupKeys_aset A Y h.1, aset_ne_nil wm A Y, fun a am hget => ?_⟩
  rw [aget_aset] at hget
  split_ifs at hget with ha
  · cases hget
    exact hY
  · exact h.2.2 a am hget

theorem WmOK_adel {wm : List (String × List (String × List Nat))} {A : String}
    (h : WmOK wm) (hne : adel wm A ≠ []) : WmOK (adel wm A) := by
  refine ⟨nodupKeys_adel A h.1, hne, fun a am hget => ?_⟩
  rw [aget_adel] at hget
  split_ifs at hget with ha
  exact h.2.2 a am hget

theorem NestedOK_aset {n : Nested} {W : Nat} {X : List (String × List (String × List Nat))}
    (h : NestedOK n) (hX : WmOK X) : NestedOK (aset n W X) := by
  refine ⟨nodupKeys_aset W X h.1, fun w wm hget => ?_⟩
  rw [aget_aset] at hget
  split_ifs at hget with hw
  · cases hget
    exact hX
  · exact h.2 w wm hget

theorem NestedOK_adel {n : Nested} {W : Nat} (h : NestedOK n) : NestedOK (adel n W) := by
  refine ⟨nodupKeys_adel W h.1, fun w wm hget => ?_⟩
  rw [aget_adel] at hget
  split_ifs at hget with hw
  exact h.2 w wm hget

/-- The effect of `removeTab` on a well-formed registry holding the
tab: the flat index loses the tab's key, the nested index stays
structurally healthy, and reads change only at the entry's own
`(windowId, appId, versionId)` path, where the tab is deleted from the
set. -/
theorem removeTab_struct {r : Registry} (hWF : RegistryWF r) {t : Nat} {e : RegistryEntry}
    (hflat : aget r.tabIndex t = some e) :
    (r.removeTab t).tabIndex = adel r.tabIndex t ∧
    NestedOK (r.removeTab t).tabsByIdentity ∧
    (∀ w a v, nGet (r.removeTab t).tabsByIdentity w a v =
      if w = e.windowId ∧ a = e.appId ∧ v = e.versionId
      then sdel (nGet r.tabsByIdentity w a v) t
      else nGet r.tabsByIdentity w a v) := by
  obtain ⟨h1, hN, hT, hJ⟩ := hWF
  have hmem : t ∈ nGet r.tabsByIdentity e.windowId e.appId e.versionId :=
    (hJ t e.windowId e.appId e.versionId).mpr ⟨e, hflat, rfl, rfl, rfl⟩
  obtain ⟨wm, am, vs, hw, ha, hv, htvs⟩ := nGet_mem hmem
  have hwmOK : WmOK wm := hN.2 e.windowId wm hw
  have hamOK : AmOK am := hwmOK.2.2 e.appId am ha
  have hvsOK := hamOK.2.2 e.versionId vs hv
  have hchain : nGet r.tabsByIdentity e.windowId e.appId e.versionId = vs := nGet_chain hw ha hv
  by_cases hvs2 : (sdel vs t).isEmpty = true
  · by_cases ham2 : (adel am e.versionId).isEmpty = true
    · by_cases hwm2 : (adel wm e.appId).isEmpty = true
      · -- all containers empty: the whole window entry is pruned
        have hdef : r.removeTab t =
            { tabsByIdentity := adel r.tabsByIdentity e.windowId
              tabIndex := adel r.tabIndex t } := by
          unfold Registry.removeTab
          rw [hflat]
          dsimp only
          rw [hw]
          dsimp only
          rw [ha]
          dsimp only
          rw [hv]
          simp [hvs2, ham2, hwm2]
        refine ⟨by rw [hdef], by rw [hdef]; exact NestedOK_adel hN, ?_⟩
        intro w a v
        rw [hdef]
        show nGet (adel r.tabsByIdentity e.windowId) w a v = _
        rw [nGet_adel]
        by_cases hww : w = e.windowId
        · rw [if_pos hww]
          subst hww
          by_cases haa : a = e.appId
          · subst haa
            by_cases hvv : v = e.versionId
            · subst hvv
              rw [if_pos ⟨rfl, rfl, rfl⟩, hchain]
              exact (List.isEmpty_iff.mp hvs2).symm
            · rw [if_neg (by simp [hvv])]
              have hnone : aget am v = none :=
                adel_eq_nil_imp (List.isEmpty_iff.mp ham2) v hvv
              rw [nGet_eq_aGet2, hw, Option.getD_some]
              unfold aGet2
              rw [ha, Option.getD_some]
              unfold aGet1
              rw [hnone]
              rfl
          · rw [if_neg (by simp [haa])]
            have hnone : aget wm a = none :=
              adel_eq_nil_imp (List.isEmpty_iff.mp hwm2) a haa
            rw [nGet_eq_aGet2, hw, Option.getD_some]
            unfold aGet2
            rw [hnone]
            rfl
        · rw [if_neg hww, if_neg (by simp [hww])]
      · -- version set and app map empty: the app entry is pruned
        have hwm2ne : adel wm e.appId ≠ [] := fun hnil => hwm2 (by rw [hnil]; rfl)
        have hdef : r.removeTab t =
            { tabsByIdentity := aset r.tabsByIdentity e.windowId (adel wm e.appId)
              tabIndex := adel r.tabIndex t } := by
          unfold Registry.removeTab
          rw [hflat]
          dsimp only
          rw [hw]
          dsimp only
          rw [ha]
          dsimp only
          rw [hv]
          simp [hvs2, ham2, hwm2]
        refine ⟨by rw [hdef],
          by rw [hdef]; exact NestedOK_aset hN (WmOK_adel hwmOK hwm2ne), ?_⟩
        intro w a v
        rw [hdef]
        show nGet (aset r.tabsByIdentity e.windowId (adel wm e.appId)) w a v = _
        rw [nGet_aset]
        by_cases hww : w = e.windowId
        · rw [if_pos hww]
          subst hww
          rw [aGet2_adel]
          by_cases haa : a = e.appId
          · rw [if_pos haa]
            subst haa
            by_cases hvv : v = e.versionId
            · subst hvv
              rw [if_pos ⟨rfl, rfl, rfl⟩, hchain]
              exact (List.isEmpty_iff.mp hvs2).symm
            · rw [if_neg (by simp [hvv])]
              have hnone : aget am v = none :=
                adel_eq_nil_imp (List.isEmpty_iff.mp ham2) v hvv
              rw [nGet_eq_aGet2, hw, Option.getD_some]
              unfold aGet2
              rw [ha, Option.getD_some]
              unfold aGet1
              rw [hnone]
              rfl
          · rw [if_neg haa, if_neg (by simp [haa])]
            rw [nGet_eq_aGet2, hw, Option.getD_some]
        · rw [if_neg hww, if_neg (by simp [hww])]
    · -- only the version set is empty: the version entry is pruned
      have ham2ne : adel am e.versionId ≠ [] := fun hnil => ham2 (by rw [hnil]; rfl)
      have hdef : r.removeTab t =
          { tabsByIdentity :=
              aset r.tabsByIdentity e.windowId (aset wm e.appId (adel am e.versionId))
            tabIndex := adel r.tabIndex t } := by
        unfold Registry.removeTab
        rw [hflat]
        dsimp only
        rw [hw]
        dsimp only
        rw [ha]
        dsimp only
        rw [hv]
        simp [hvs2, ham2]
      refine ⟨by rw [hdef],
        by rw [hdef]; exact NestedOK_aset hN (WmOK_aset hwmOK (AmOK_adel hamOK ham2ne)), ?_⟩
      intro w a v
      rw [hdef]
      show nGet (aset r.tabsByIdentity e.windowId (aset wm e.appId (adel am e.versionId))) w a v = _
      rw [nGet_aset]
      by_cases hww : w = e.windowId
      · rw [if_pos hww]
        subst hww
        rw [aGet2_aset]
        by_cases haa : a = e.appId
        · rw [if_pos haa]
          subst haa
          rw [aGet1_adel]
          by_cases hvv : v = e.versionId
          · rw [if_pos hvv]
            subst hvv
            rw [if_pos ⟨rfl, rfl, rfl⟩, hchain]
            exact (List.isEmpty_iff.mp hvs2).symm
          · rw [if_neg hvv, if_neg (by simp [hvv])]
            rw [nGet_eq_aGet2, hw, Option.getD_some]
            unfold aGet2
            rw [ha, Option.getD_some]
        · rw [if_neg haa, if_neg (by simp [haa])]
          rw [nGet_eq_aGet2, hw, Option.getD_some]
      · rw [if_neg hww, if_neg (by simp [hww])]
  · -- the version set stays non-empty: only the tab is deleted
    have hvs2ne : sdel vs t ≠ [] := fun hnil => hvs2 (by rw [hnil]; rfl)
    have hdef : r.removeTab t =
        { tabsByIdentity :=
            aset r.tabsByIdentity e.windowId
              (aset wm e.appId (aset am e.versionId (sdel vs t)))
          tabIndex := adel r.tabIndex t } := by
      unfold Registry.removeTab
      rw [hflat]
      dsimp only
      rw [hw]
      dsimp only
      rw [ha]
      dsimp only
      rw [hv]
      simp [hvs2]
    refine ⟨by rw [hdef],
      by
        rw [hdef]
        exact NestedOK_aset hN
          (WmOK_aset hwmOK (AmOK_aset hamOK (nodup_sdel t hvsOK.1) hvs2ne)), ?_⟩
    intro w a v
    rw [hdef]
    show nGet (aset r.tabsByIdentity e.windowId
      (aset wm e.appId (aset am e.versionId (sdel vs t)))) w a v = _
    rw [nGet_aset]
    by_cases hww : w = e.windowId
    · rw [if_pos hww]
      subst hww
      rw [aGet2_aset]
      by_cases haa : a = e.appId
      · rw [if_pos haa]
        subst haa
        rw [aGet1_aset]
        by_cases hvv : v = e.versionId
        · rw [if_pos hvv]
          subst hvv
          rw [if_pos ⟨rfl, rfl, rfl⟩, hchain]
        · rw [if_neg hvv, if_neg (by simp [hvv])]
          rw [nGet_eq_aGet2, hw, Option.getD_some]
          unfold aGet2
          rw [ha, Option.getD_some]
      · rw [if_neg haa, if_neg (by simp [haa])]
        rw [nGet_eq_aGet2, hw, Option.getD_some]
    · rw [if_neg hww, if_neg (by simp [hww])]

theorem removeTab_WF {r : Registry} (hWF : RegistryWF r) (t : Nat) :
    RegistryWF (r.removeTab t) := by
  cases hflat : aget r.tabIndex t with
  | none =>
    have hid : r.removeTab t = r := by
      unfold Registry.removeTab
      rw [hflat]
    rw [hid]
    exact hWF
  | some e =>
    obtain ⟨hfl, hnok, hreads⟩ := removeTab_struct hWF hflat
    obtain ⟨h1, hN, hT, hJ⟩ := hWF
    refine ⟨?_, hnok, ?_, ?_⟩
    · rw [hfl]
      exact nodupKeys_adel t h1
    · intro q e2 hq
      rw [hfl, aget_adel] at hq
      split_ifs at hq with hqt
      exact hT q e2 hq
    · intro q w a v
      rw [hreads w a v, hfl]
      constructor
      · intro hmem
        split_ifs at hmem with hcoord
        · obtain ⟨hin, hne⟩ := (mem_sdel _ _ _).mp hmem
          obtain ⟨e2, he2, h2w, h2a, h2v⟩ := (hJ q w a v).mp hin
          exact ⟨e2, by rw [aget_adel, if_neg hne]; exact he2, h2w, h2a, h2v⟩
        · obtain ⟨e2, he2, h2w, h2a, h2v⟩ := (hJ q w a v).mp hmem
          have hne : ¬ q = t := by
            intro hteq
            subst hteq
            rw [hflat] at he2
            injection he2 with he2e
            subst he2e
            exact hcoord ⟨h2w.symm, h2a.symm, h2v.symm⟩
          exact ⟨e2, by rw [aget_adel, if_neg hne]; exact he2, h2w, h2a, h2v⟩
      · rintro ⟨e2, he2, h2w, h2a, h2v⟩
        rw [aget_adel] at he2
        split_ifs at he2 with hqt
        have hin : q ∈ nGet r.tabsByIdentity w a v := (hJ q w a v).mpr ⟨e2, he2, h2w, h2a, h2v⟩
        split_ifs with hcoord
        · exact (mem_sdel _ _ _).mpr ⟨hin, hqt⟩
        · exact hin

theorem AmOK_aset2 {am : List (String × List Nat)} {V : String} {z : List Nat}
    (hk : nodupKeys am) (hinner : ∀ v vs, aget am v = some vs → vs.Nodup ∧ vs ≠ [])
    (hz : z.Nodup) (hne : z ≠ []) : AmOK (aset am V z) := by
  refine ⟨nodupKeys_aset V z hk, aset_ne_nil am V z, fun v vs hget => ?_⟩
  rw [aget_aset] at hget
  split_ifs at hget with hv
  · cases hget
    exact ⟨hz, hne⟩
  · exact hinner v vs hget

theorem WmOK_aset2 {wm : List (String × List (String × List Nat))} {A : String}
    {Y : List (String × List Nat)} (hk : nodupKeys wm)
    (hinner : ∀ a am, aget wm a = some am → AmOK am) (hY : AmOK Y) : WmOK (aset wm A Y) := by
  refine ⟨nodupKeys_aset A Y hk, aset_ne_nil wm A Y, fun a am hget => ?_⟩
  rw [aget_aset] at hget
  split_ifs at hget with ha
  · cases hget
    exact hY
  · exact hinner a am hget

theorem nested_add_reads (n : Nested) (W : Nat) (A V : String) (t : Nat) :
    ∀ w a v,
      nGet (aset n W (aset ((aget n W).getD []) A
        (aset ((aget ((aget n W).getD []) A).getD []) V (sadd (nGet n W A V) t)))) w a v =
      if w = W ∧ a = A ∧ v = V then sadd (nGet n W A V) t else nGet n w a v := by
  intro w a v
  rw [nGet_aset]
  by_cases hww : w = W
  · rw [if_pos hww]
    subst hww
    rw [aGet2_aset]
    by_cases haa : a = A
    · rw [if_pos haa]
      subst haa
      rw [aGet1_aset]
      by_cases hvv : v = V
      · rw [if_pos hvv]
        subst hvv
        rw [if_pos ⟨rfl, rfl, rfl⟩]
      · rw [if_neg hvv, if_neg (by simp [hvv])]
        rfl
    · rw [if_neg haa, if_neg (by simp [haa])]
      rfl
  · rw [if_neg hww, if_neg (by simp [hww])]

theorem NestedOK_add {n : Nested} (h : NestedOK n) (W : Nat) (A V : String) (t : Nat) :
    NestedOK (aset n W (aset ((aget n W).getD []) A
      (aset ((aget ((aget n W).getD []) A).getD []) V (sadd (nGet n W A V) t)))) := by
  have hwm : nodupKeys ((aget n W).getD []) ∧
      (∀ a am, aget ((aget n W).getD []) a = some am → AmOK am) := by
    cases hW : aget n W with
    | none =>
      refine ⟨by simp [nodupKeys], fun a am hget => ?_⟩
      simp [aget] at hget
    | some wm =>
      have := h.2 W wm hW
      exact ⟨this.1, this.2.2⟩
  have ham : nodupKeys ((aget ((aget n W).getD []) A).getD []) ∧
      (∀ v vs, aget ((aget ((aget n W).getD []) A).getD []) v = some vs →
        vs.Nodup ∧ vs ≠ []) := by
    cases hA : aget ((aget n W).getD []) A with
    | none =>
      refine ⟨by simp [nodupKeys], fun v vs hget => ?_⟩
      simp [aget] at hget
    | some am =>
      have := hwm.2 A am hA
      exact ⟨this.1, this.2.2⟩
  exact NestedOK_aset h
    (WmOK_aset2 hwm.1 hwm.2
      (AmOK_aset2 ham.1 ham.2 (nodup_sadd t (nGet_nodup h W A V)) (sadd_ne_nil _ t)))

theorem setTabIdentity_struct (r : Registry) (t w : Nat) (i : TabIdentity) (u : String)
    (now : Int) :
    (r.setTabIdentity t w i u now).tabIndex =
      aset (r.removeTab t).tabIndex t
        { tabId := t, windowId := w, appId := i.appId, versionId := i.versionId,
          ty := i.ty, hostname := i.hostname, url := u, updatedAt := now } ∧
    (∀ w2 a2 v2, nGet (r.setTabIdentity t w i u now).tabsByIdentity w2 a2 v2 =
      if w2 = w ∧ a2 = i.appId ∧ v2 = i.versionId
      then sadd (nGet (r.removeTab t).tabsByIdentity w i.appId i.versionId) t
      else nGet (r.removeTab t).tabsByIdentity w2 a2 v2) ∧
    (NestedOK (r.removeTab t).tabsByIdentity →
      NestedOK (r.setTabIdentity t w i u now).tabsByIdentity) := by
  refine ⟨rfl, ?_, ?_⟩
  · intro w2 a2 v2
    exact nested_add_reads (r.removeTab t).tabsByIdentity w i.appId i.versionId t w2 a2 v2
  · intro hOK
    exact NestedOK_add hOK w i.appId i.versionId t

theorem setTabIdentity_WF {r : Registry} (hWF : RegistryWF r) (t w : Nat) (i : TabIdentity)
    (u : String) (now : Int) : RegistryWF (r.setTabIdentity t w i u now) := by
  have hWF2 := removeTab_WF hWF t
  obtain ⟨h1, hN, hT, hJ⟩ := hWF2
  have hnone := removeTab_flat_none r t
  obtain ⟨hfl, hreads, hok⟩ := setTabIdentity_struct r t w i u now
  refine ⟨?_, hok hN, ?_, ?_⟩
  · rw [hfl]
    exact nodupKeys_aset _ _ h1
  · intro q e2 hq
    rw [hfl, aget_aset] at hq
    split_ifs at hq with hqt
    · injection hq with hq2
      subst hq2
      exact hqt.symm
    · exact hT q e2 hq
  · intro q w2 a2 v2
    rw [hreads w2 a2 v2, hfl]
    constructor
    · intro hmem
      split_ifs at hmem with hcoord
      · obtain ⟨hcw, hca, hcv⟩ := hcoord
        rcases (mem_sadd _ _ _).mp hmem with hin | hteq
        · obtain ⟨e2, he2, h2w, h2a, h2v⟩ := (hJ q w i.appId i.versionId).mp hin
          have hne : ¬ q = t := by
            intro hteq
            rw [hteq, hnone] at he2
            cases he2
          exact ⟨e2, by rw [aget_aset, if_neg hne]; exact he2,
            h2w.trans hcw.symm, h2a.trans hca.symm, h2v.trans hcv.symm⟩
        · subst hteq
          exact ⟨_, by rw [aget_aset, if_pos rfl], hcw.symm, hca.symm, hcv.symm⟩
      · obtain ⟨e2, he2, h2w, h2a, h2v⟩ := (hJ q w2 a2 v2).mp hmem
        have hne : ¬ q = t := by
          intro hteq
          rw [hteq, hnone] at he2
          cases he2
        exact ⟨e2, by rw [aget_aset, if_neg hne]; exact he2, h2w, h2a, h2v⟩
    · rintro ⟨e2, he2, h2w, h2a, h2v⟩
      rw [aget_aset] at he2
      split_ifs at he2 with hqt
      · injection he2 with he2e
        subst he2e
        subst hqt
        rw [if_pos ⟨h2w.symm, h2a.symm, h2v.symm⟩]
        exact (mem_sadd _ _ _).mpr (Or.inr rfl)
      · have hin : q ∈ nGet (r.removeTab t).tabsByIdentity w2 a2 v2 :=
          (hJ q w2 a2 v2).mpr ⟨e2, he2, h2w, h2a, h2v⟩
        split_ifs with hcoord
        · obtain ⟨rfl, rfl, rfl⟩ := hcoord
          exact (mem_sadd _ _ _).mpr (Or.inl hin)
        · exact hin

theorem RegistryWF_empty : RegistryWF Registry.empty := by
  refine ⟨by simp [nodupKeys, Registry.empty], ⟨by simp [nodupKeys, Registry.empty], ?_⟩, ?_, ?_⟩
  · intro w wm hget
    simp [Registry.empty, aget] at hget
  · intro t e hget
    simp [Registry.empty, aget] at hget
  · intro t w a v
    constructor
    · intro hmem
      simp [Registry.empty, nGet, aget] at hmem
    · rintro ⟨e, he, _⟩
      simp [Registry.empty, aget] at he

/-- C9: starting from the empty registry, every sequence of
`setTabIdentity` and `removeTab` calls yields a registry whose two
indexes are consistent: the structure is well-formed (unique keys, no
empty version set / app map / window map, duplicate-free sets), a tab
id occurs in a nested `(window, app, version)` set at most once and
exactly when its flat entry carries those coordinates (so the nested
index holds exactly the flat index's tab ids), and `removeTab` of an
unknown tab id leaves any registry unchanged. -/
theorem registry_consistency (ops : List RegOp) :
    RegistryWF (applyRegOps ops) ∧
    (∀ t w a v w2 a2 v2, t ∈ nGet (applyRegOps ops).tabsByIdentity w a v →
      t ∈ nGet (applyRegOps ops).tabsByIdentity w2 a2 v2 → w = w2 ∧ a = a2 ∧ v = v2) ∧
    (∀ t w a v, t ∈ nGet (applyRegOps ops).tabsByIdentity w a v ↔
      ∃ e, aget (applyRegOps ops).tabIndex t = some e ∧
        e.windowId = w ∧ e.appId = a ∧ e.versionId = v) ∧
    (∀ r : Registry, ∀ t, aget r.tabIndex t = none → r.removeTab t = r) := by
  have hWF : RegistryWF (applyRegOps ops) := by
    induction ops with
    | nil => exact RegistryWF_empty
    | cons op rest ih =>
      cases op with
      | set t w i u now => exact setTabIdentity_WF ih t w i u now
      | remove t => exact removeTab_WF ih t
  refine ⟨hWF, ?_, hWF.2.2.2, ?_⟩
  · intro t w a v w2 a2 v2 hm1 hm2
    obtain ⟨e1, he1, h1w, h1a, h1v⟩ := (hWF.2.2.2 t w a v).mp hm1
    obtain ⟨e2, he2, h2w, h2a, h2v⟩ := (hWF.2.2.2 t w2 a2 v2).mp hm2
    rw [he1] at he2
    injection he2 with he2e
    subst he2e
    exact ⟨h1w.symm.trans h2w, h1a.symm.trans h2a, h1v.symm.trans h2v⟩
  · intro r t h
    unfold Registry.removeTab
    rw [h]

theorem registry_consistency_witness :
    5 ∈ nGet (applyRegOps
      [RegOp.set 5 1 { appId := "a", versionId := "v", ty := PageType.editor,
                       hostname := "h" } "u" 0]).tabsByIdentity 1 "a" "v" := by
  have h := registry_consistency
    [RegOp.set 5 1 { appId := "a", versionId := "v", ty := PageType.editor,
                     hostname := "h" } "u" 0]
  exact (h.2.2.1 5 1 "a" "v").mpr ⟨_, rfl, rfl, rfl, rfl⟩

/-! Lookup-only state changes of the grouping engine (C3). -/

theorem sem_refl (s : SysState) : SameExceptMappings s s :=
  ⟨rfl, rfl, rfl, rfl, rfl, rfl, rfl, rfl, rfl⟩

theorem sem_trans {s t u : SysState} (h1 : SameExceptMappings s t)
    (h2 : SameExceptMappings t u) : SameExceptMappings s u :=
  ⟨h2.1.trans h1.1, h2.2.1.trans h1.2.1, h2.2.2.1.trans h1.2.2.1,
   h2.2.2.2.1.trans h1.2.2.2.1, h2.2.2.2.2.1.trans h1.2.2.2.2.1,
   h2.2.2.2.2.2.1.trans h1.2.2.2.2.2.1, h2.2.2.2.2.2.2.1.trans h1.2.2.2.2.2.2.1,
   h2.2.2.2.2.2.2.2.1.trans h1.2.2.2.2.2.2.2.1, h2.2.2.2.2.2.2.2.2.trans h1.2.2.2.2.2.2.2.2⟩

theorem sem_touch (s : SysState) (g : Nat) : SameExceptMappings s (touchGroupMapping s g) := by
  unfold touchGroupMapping
  cases aget s.mappings g
  · exact sem_refl s
  · exact ⟨rfl, rfl, rfl, rfl, rfl, rfl, rfl, rfl, rfl⟩

theorem sem_store (s : SysState) (g : Nat) (a v : String) (w : Nat) :
    SameExceptMappings s (storeGroupMapping s g a v w) :=
  ⟨rfl, rfl, rfl, rfl, rfl, rfl, rfl, rfl, rfl⟩

theorem sem_getGroupIdentity (s : SysState) (g : Nat) :
    SameExceptMappings s (getGroupIdentity s g).2 := by
  unfold getGroupIdentity
  dsimp only
  split
  · split
    · split
      · split_ifs
        · exact sem_touch s g
        · exact sem_refl s
      · exact sem_refl s
    · exact sem_refl s
  · split
    · exact sem_store s g _ _ _
    · exact sem_refl s

theorem sem_validateCandidates (w : Nat) :
    ∀ (l : List Nat) (s : SysState), SameExceptMappings s (validateCandidates s w l).2 := by
  intro l
  induction l with
  | nil => intro s; exact sem_refl s
  | cons g gs ih =>
    intro s
    unfold validateCandidates
    split
    · split_ifs
      · exact sem_touch s g
      · exact ih s
    · exact ih s

theorem sem_scanGroups (w : Nat) (a v : String) :
    ∀ (l : List Nat) (s : SysState), SameExceptMappings s (scanGroups w a v s l).2 := by
  intro l
  induction l with
  | nil => intro s; exact sem_refl s
  | cons g gs ih =>
    intro s
    have base : SameExceptMappings s (getGroupIdentity s g).2 := sem_getGroupIdentity s g
    unfold scanGroups
    rcases hgi : getGroupIdentity s g with ⟨mi, s1⟩
    rw [hgi] at base
    cases mi with
    | none =>
      dsimp only
      exact sem_trans base (ih s1)
    | some i =>
      dsimp only
      split_ifs
      · exact sem_trans base (sem_store s1 g a v w)
      · exact sem_trans base (ih s1)

theorem sem_findGroupByIdentity (s : SysState) (w : Nat) (a v : String) :
    SameExceptMappings s (findGroupByIdentity s w a v).2 := by
  unfold findGroupByIdentity
  dsimp only
  have base := sem_validateCandidates w (findGroupsForIdentity s.mappings a v (some w)) s
  rcases hvc : validateCandidates s w (findGroupsForIdentity s.mappings a v (some w)) with ⟨r1, s1⟩
  rw [hvc] at base
  cases r1 with
  | some g =>
    dsimp only
    exact base
  | none =>
    dsimp only
    exact sem_trans base (sem_scanGroups w a v _ s1)

theorem applyGroupUpdatesState_parts (s : SysState) (g : Nat) (u : UpdateProperties) :
    (applyGroupUpdatesState s g u).mappings = s.mappings ∧
    (applyGroupUpdatesState s g u).now = s.now ∧
    (applyGroupUpdatesState s g u).groups.length = s.groups.length ∧
    (applyGroupUpdatesState s g u).nextGroupId = s.nextGroupId := by
  refine ⟨rfl, rfl, ?_, rfl⟩
  simp [applyGroupUpdatesState]

/-- C3 (amended): find-before-create. The lookup (`findGroupByIdentity`)
can only touch or backfill the durable mapping store — it changes no
host group and creates nothing; when it finds a group, `findOrCreateGroup`
returns exactly that group in exactly the lookup's state (no group is
created and no extra mapping is written); and when the lookup misses
and creation succeeds, exactly one fresh group is created and its
mapping is recorded for the bucket's identity. A pass does NOT restore
at-most-one-mapping-per-identity in general: the lookup's backfill can
add a second mapping for an identity whose majority appears in a second
host group (see the counterexample). -/
theorem findOrCreateGroup_find_before_create (maxLen : Nat) (s : SysState) (b : TabBucket) :
    SameExceptMappings s (findGroupByIdentity s b.windowId b.appId b.versionId).2 ∧
    (∀ g s1, findGroupByIdentity s b.windowId b.appId b.versionId = (some g, s1) →
      findOrCreateGroup maxLen s b = (some g, s1)) ∧
    (∀ s1, findGroupByIdentity s b.windowId b.appId b.versionId = (none, s1) →
      ∀ g s2, findOrCreateGroup maxLen s b = (some g, s2) →
        g = s1.nextGroupId ∧
        s2.groups.length = s1.groups.length + 1 ∧
        aget s2.mappings g = some { appId := b.appId, versionId := b.versionId,
                                    windowId := b.windowId, lastSeen := s1.now }) := by
  refine ⟨sem_findGroupByIdentity s b.windowId b.appId b.versionId, ?_, ?_⟩
  · intro g s1 h
    unfold findOrCreateGroup
    rw [h]
  · intro s1 h g s2 h2
    unfold findOrCreateGroup at h2
    rw [h] at h2
    dsimp only at h2
    cases htabs : b.tabs with
    | nil =>
      rw [htabs] at h2
      simp at h2
    | cons t0 ts =>
      rw [htabs] at h2
      dsimp only at h2
      cases hg : getTab s1 t0 with
      | none =>
        rw [hg] at h2
        simp at h2
      | some tab0 =>
        rw [hg] at h2
        dsimp only at h2
        injection h2 with h2a h2b
        injection h2a with h2a2
        subst h2a2
        refine ⟨rfl, ?_, ?_⟩
        · rw [← h2b]
          simp only [storeGroupMapping]
          split <;> simp [applyGroupUpdatesState]
        · rw [← h2b]
          simp only [storeGroupMapping]
          rw [aget_aset, if_pos rfl]
          split <;> rfl

theorem findOrCreateGroup_find_before_create_witness :
    aget ((findOrCreateGroup 20 witnessStateC3 witnessBucketC3).2).mappings 42 =
      some { appId := "a", versionId := "v", windowId := 1, lastSeen := 0 } := by
  have h := findOrCreateGroup_find_before_create 20 witnessStateC3 witnessBucketC3
  exact (h.2.2 witnessStateC3 rfl 42 (findOrCreateGroup 20 witnessStateC3 witnessBucketC3).2
    (by rfl)).2.2

/-- Counterexample to C3 as stated: from a reachable state satisfying
at-most-one-mapping-per-identity (one mapping, for group 10 and
identity `(1, "a", "j")`), a single planning pass ends with two durable
mappings for that identity: processing the `("a", "i")` bucket misses
in the store and falls back to the majority scan, whose backfill also
stores a mapping for group 20 (the user-built second group whose member
majority is `("a", "j")`). -/
theorem planAndExecuteGrouping_duplicate_mapping_cex :
    mappingsForIdentity cexStateC3 1 "a" "j" = 1 ∧
    mappingsForIdentity (planAndExecuteGrouping 20 cexStateC3) 1 "a" "j" = 2 := by
  constructor
  · decide
  · decide

/-! Bucketing lemmas (C5). -/

theorem aget_some_mem_keys {κ ν : Type} [DecidableEq κ] {m : List (κ × ν)} {k : κ} {v : ν}
    (h : aget m k = some v) : k ∈ m.map Prod.fst :=
  List.mem_map.mpr ⟨(k, v), aget_mem h, rfl⟩

theorem aget_of_mem_nodup {κ ν : Type} [DecidableEq κ] {m : List (κ × ν)}
    (hnd : nodupKeys m) {k : κ} {v : ν} (hm : (k, v) ∈ m) : aget m k = some v := by
  induction m with
  | nil => simp at hm
  | cons p ps ih =>
    simp only [nodupKeys, List.map_cons, List.nodup_cons] at hnd
    rcases List.mem_cons.mp hm with hm1 | hm1
    · rw [← hm1]
      simp [aget]
    · have hk : k ∈ ps.map Prod.fst := List.mem_map.mpr ⟨(k, v), hm1, rfl⟩
      have hne : ¬ p.1 = k := fun h => hnd.1 (h ▸ hk)
      simp only [aget, if_neg hne]
      exact ih hnd.2 hm1

theorem aget_append {κ ν : Type} [DecidableEq κ] (m1 m2 : List (κ × ν)) (q : κ) :
    aget (m1 ++ m2) q = match aget m1 q with | some v => some v | none => aget m2 q := by
  induction m1 with
  | nil => simp [aget]
  | cons p ps ih =>
    simp only [List.cons_append, aget]
    by_cases hpq : p.1 = q <;> simp [hpq, ih]

theorem aget_push {κ ν : Type} [DecidableEq κ] (m : List (κ × ν)) (k : κ) (g : ν → ν) (q : κ) :
    aget (m.map (fun p => if p.1 = k then (p.1, g p.2) else p)) q =
      if q = k then (aget m q).map g else aget m q := by
  induction m with
  | nil =>
    by_cases hqk : q = k <;> simp [aget, hqk]
  | cons p ps ih =>
    simp only [List.map_cons]
    by_cases hpk : p.1 = k
    · by_cases hpq : p.1 = q
      · subst hpq
        simp [aget, hpk]
      · simp only [if_pos hpk, aget, if_neg hpq, ih]
    · by_cases hpq : p.1 = q
      · subst hpq
        simp [aget, if_neg hpk, hpk]
      · simp only [if_neg hpk, aget, if_neg hpq, ih]

theorem aget_push_list (m : List (String × List Nat)) (k : String) (t : Nat) (q : String) :
    aget (m.map (fun p => if p.1 = k then (p.1, p.2 ++ [t]) else p)) q =
      if q = k then (aget m q).map (fun l => l ++ [t]) else aget m q :=
  aget_push m k (fun l => l ++ [t]) q

theorem aget_bucketInsert (m : List (String × List Nat)) (k : String) (add : Option Nat)
    (q : String) :
    aget (bucketInsert m k add) q =
      if q = k then
        some ((aget m k).getD [] ++ (match add with | some t => [t] | none => []))
      else aget m q := by
  have hens : ∀ q2, aget (if (aget m k).isSome then m else m ++ [(k, [])]) q2 =
      if q2 = k then some ((aget m k).getD []) else aget m q2 := by
    intro q2
    by_cases hs : (aget m k).isSome
    · rw [if_pos hs]
      by_cases hq : q2 = k
      · obtain ⟨x, hx⟩ := Option.isSome_iff_exists.mp hs
        rw [if_pos hq, hq, hx]
        rfl
      · rw [if_neg hq]
    · rw [if_neg hs]
      have hknone : aget m k = none := by
        cases haget : aget m k
        · rfl
        · rw [haget] at hs
          simp at hs
      rw [aget_append]
      by_cases hq : q2 = k
      · rw [if_pos hq, hq, hknone]
        simp [aget]
      · rw [if_neg hq]
        cases haget : aget m q2
        · simp [aget, Ne.symm hq]
        · rfl
  unfold bucketInsert
  cases add with
  | none =>
    dsimp only
    rw [hens q]
    by_cases hq : q = k <;> simp [hq]
  | some t =>
    dsimp only
    rw [aget_push_list]
    by_cases hq : q = k
    · rw [if_pos hq, if_pos hq, hens q, if_pos hq]
      rfl
    · rw [if_neg hq, if_neg hq, hens q, if_neg hq]

theorem keys_bucketInsert (m : List (String × List Nat)) (k : String) (add : Option Nat) :
    (bucketInsert m k add).map Prod.fst =
      if (aget m k).isSome then m.map Prod.fst else m.map Prod.fst ++ [k] := by
  have hpush : ∀ (m2 : List (String × List Nat)) (t : Nat),
      (m2.map (fun p => if p.1 = k then (p.1, p.2 ++ [t]) else p)).map Prod.fst =
        m2.map Prod.fst := by
    intro m2 t
    rw [List.map_map]
    apply List.map_congr_left
    intro p hp
    by_cases hpk : p.1 = k <;> simp [hpk]
  unfold bucketInsert
  cases add with
  | none =>
    by_cases hs : (aget m k).isSome <;> simp [hs]
  | some t =>
    by_cases hs : (aget m k).isSome
    · rw [if_pos hs, if_pos hs, hpush]
    · rw [if_neg hs, if_neg hs, hpush]
      simp

theorem nodupKeys_bucketInsert (m : List (String × List Nat)) (k : String) (add : Option Nat)
    (h : nodupKeys m) : nodupKeys (bucketInsert m k add) := by
  unfold nodupKeys
  rw [keys_bucketInsert]
  split_ifs with hs
  · exact h
  · have hknone : aget m k = none := by
      cases haget : aget m k
      · rfl
      · rw [haget] at hs
        simp at hs
    have hk := (aget_eq_none_iff m k).mp hknone
    have h2 : (m.map Prod.fst).Nodup := h
    simp [List.nodup_append, h2, hk]

theorem bucketFold_aget (holds : List (Nat × ManualHold)) (tabExists tabPinned : Nat → Bool)
    (q : String) :
    ∀ (entries : List RegistryEntry) (m0 : List (String × List Nat)),
      aget (entries.foldl
        (fun m e => bucketInsert m (e.appId ++ ":" ++ e.versionId)
          (if eligibleTab holds tabExists tabPinned e then some e.tabId else none)) m0) q =
      (match aget m0 q with
      | some l => some (l ++ (entries.filter (fun e =>
          decide (e.appId ++ ":" ++ e.versionId = q) &&
            eligibleTab holds tabExists tabPinned e)).map (fun e => e.tabId))
      | none =>
        if entries.any (fun e => decide (e.appId ++ ":" ++ e.versionId = q)) then
          some ((entries.filter (fun e =>
            decide (e.appId ++ ":" ++ e.versionId = q) &&
              eligibleTab holds tabExists tabPinned e)).map (fun e => e.tabId))
        else none) := by
  intro entries
  induction entries with
  | nil =>
    intro m0
    cases h0 : aget m0 q <;> simp [h0]
  | cons e es ih =>
    intro m0
    rw [List.foldl_cons, ih, aget_bucketInsert]
    by_cases hq : e.appId ++ ":" ++ e.versionId = q
    · subst hq
      rw [if_pos rfl]
      cases h0 : aget m0 (e.appId ++ ":" ++ e.versionId) <;>
        by_cases helig : eligibleTab holds tabExists tabPinned e = true <;>
          simp [h0, helig, List.filter_cons, List.any_cons, List.append_assoc]
    · rw [if_neg (fun hh => hq hh.symm)]
      have hq2 : decide (e.appId ++ ":" ++ e.versionId = q) = false := by simp [hq]
      cases h0 : aget m0 q <;> simp [h0, List.filter_cons, List.any_cons, hq2]

theorem bucketWindowMap_aget (entries : List RegistryEntry) (holds : List (Nat × ManualHold))
    (tabExists tabPinned : Nat → Bool) (q : String) :
    aget (bucketWindowMap entries holds tabExists tabPinned) q =
      if entries.any (fun e => decide (e.appId ++ ":" ++ e.versionId = q)) then
        some ((entries.filter (fun e =>
          decide (e.appId ++ ":" ++ e.versionId = q) &&
            eligibleTab holds tabExists tabPinned e)).map (fun e => e.tabId))
      else none := by
  unfold bucketWindowMap
  rw [bucketFold_aget holds tabExists tabPinned q entries []]
  rfl

theorem nodupKeys_bucketFold (holds : List (Nat × ManualHold)) (tabExists tabPinned : Nat → Bool) :
    ∀ (entries : List RegistryEntry) (m0 : List (String × List Nat)), nodupKeys m0 →
      nodupKeys (entries.foldl
        (fun m e => bucketInsert m (e.appId ++ ":" ++ e.versionId)
          (if eligibleTab holds tabExists tabPinned e then some e.tabId else none)) m0) := by
  intro entries
  induction entries with
  | nil => intro m0 h; exact h
  | cons e es ih =>
    intro m0 h
    rw [List.foldl_cons]
    exact ih _ (nodupKeys_bucketInsert _ _ _ h)

theorem nodupKeys_bucketWindowMap (entries : List RegistryEntry)
    (holds : List (Nat × ManualHold)) (tabExists tabPinned : Nat → Bool) :
    nodupKeys (bucketWindowMap entries holds tabExists tabPinned) :=
  nodupKeys_bucketFold holds tabExists tabPinned entries [] (by simp [nodupKeys])

theorem bucketValue_mem (entries : List RegistryEntry) (holds : List (Nat × ManualHold))
    (tabExists tabPinned : Nat → Bool) (q : String) (l : List Nat) (t : Nat)
    (h : aget (bucketWindowMap entries holds tabExists tabPinned) q = some l) :
    (t ∈ l ↔ ∃ e, e ∈ entries ∧ e.tabId = t ∧ e.appId ++ ":" ++ e.versionId = q ∧
      eligibleTab holds tabExists tabPinned e = true) := by
  rw [bucketWindowMap_aget] at h
  by_cases hany : entries.any (fun e => decide (e.appId ++ ":" ++ e.versionId = q))
  case neg =>
    rw [if_neg hany] at h
    cases h
  rw [if_pos hany] at h
  have hl := Option.some.inj h
  subst hl
  constructor
  · intro ht
    rcases List.mem_map.mp ht with ⟨e, hef, het⟩
    have hsplit := List.mem_filter.mp hef
    have hcond := hsplit.2
    rw [Bool.and_eq_true] at hcond
    exact ⟨e, hsplit.1, het, of_decide_eq_true hcond.1, hcond.2⟩
  · rintro ⟨e, hee, het, hkey, helig⟩
    exact List.mem_map.mpr ⟨e, List.mem_filter.mpr ⟨hee, by simp [hkey, helig]⟩, het⟩

theorem bucketValue_nodup (entries : List RegistryEntry) (holds : List (Nat × ManualHold))
    (tabExists tabPinned : Nat → Bool) (q : String) (l : List Nat)
    (hnd : (entries.map (fun e => e.tabId)).Nodup)
    (h : aget (bucketWindowMap entries holds tabExists tabPinned) q = some l) : l.Nodup := by
  rw [bucketWindowMap_aget] at h
  split_ifs at h with hany
  have hl := Option.some.inj h
  subst hl
  exact List.Nodup.sublist (List.Sublist.map _ (List.filter_sublist _)) hnd

theorem bucketKey_present (entries : List RegistryEntry) (holds : List (Nat × ManualHold))
    (tabExists tabPinned : Nat → Bool) (e : RegistryEntry) (he : e ∈ entries) :
    ∃ l, aget (bucketWindowMap entries holds tabExists tabPinned)
      (e.appId ++ ":" ++ e.versionId) = some l := by
  rw [bucketWindowMap_aget]
  rw [if_pos (List.any_eq_true.mpr ⟨e, he, by simp⟩)]
  exact ⟨_, rfl⟩

theorem foldl_append_mem {α β : Type} (f : α → List β) (ws : List α) :
    ∀ (acc : List β) (x : β),
      (x ∈ ws.foldl (fun a w => a ++ f w) acc ↔ x ∈ acc ∨ ∃ w, w ∈ ws ∧ x ∈ f w) := by
  induction ws with
  | nil =>
    intro acc x
    simp
  | cons w ws ih =>
    intro acc x
    rw [List.foldl_cons, ih]
    constructor
    · rintro (hm | ⟨w2, hw2, hx⟩)
      · rcases List.mem_append.mp hm with h1 | h1
        · exact Or.inl h1
        · exact Or.inr ⟨w, List.mem_cons_self w ws, h1⟩
      · exact Or.inr ⟨w2, List.mem_cons.mpr (Or.inr hw2), hx⟩
    · rintro (hm | ⟨w2, hw2, hx⟩)
      · exact Or.inl (List.mem_append.mpr (Or.inl hm))
      · rcases List.mem_cons.mp hw2 with h1 | h1
        · exact Or.inl (List.mem_append.mpr (Or.inr (h1 ▸ hx)))
        · exact Or.inr ⟨w2, h1, hx⟩

theorem mem_bucketTabsByIdentity (r : Registry) (holds : List (Nat × ManualHold))
    (tabExists tabPinned : Nat → Bool) (b : TabBucket) :
    b ∈ bucketTabsByIdentity r holds tabExists tabPinned ↔
      ∃ w, w ∈ r.tabsByIdentity.map Prod.fst ∧
        ∃ p, p ∈ bucketWindowMap (r.getWindowTabs w) holds tabExists tabPinned ∧
          p.2 ≠ [] ∧
          b = { windowId := w, appId := (splitKey p.1).1, versionId := (splitKey p.1).2
                tabs := p.2, key := p.1 } := by
  have h := foldl_append_mem
    (fun w => (bucketWindowMap (r.getWindowTabs w) holds tabExists tabPinned).filterMap
      (fun p => if p.2.isEmpty then none
        else some { windowId := w, appId := (splitKey p.1).1, versionId := (splitKey p.1).2
                    tabs := p.2, key := p.1 }))
    (r.tabsByIdentity.map Prod.fst) [] b
  constructor
  · intro hb
    rcases h.mp hb with h0 | ⟨w, hw, hf⟩
    · simp at h0
    · rcases List.mem_filterMap.mp hf with ⟨p, hp, hps⟩
      by_cases he : p.2.isEmpty
      · rw [if_pos he] at hps
        cases hps
      · rw [if_neg he] at hps
        have hb2 := Option.some.inj hps
        refine ⟨w, hw, p, hp, ?_, hb2.symm⟩
        simpa [List.isEmpty_iff] using he
  · rintro ⟨w, hw, p, hp, hne, hb2⟩
    apply h.mpr
    refine Or.inr ⟨w, hw, List.mem_filterMap.mpr ⟨p, hp, ?_⟩⟩
    rw [if_neg (by simpa [List.isEmpty_iff] using hne), hb2]

theorem mem_getWindowTabs {r : Registry} (hnd : nodupKeys r.tabIndex)
    (hT : ∀ t e, aget r.tabIndex t = some e → e.tabId = t) {w : Nat} {e : RegistryEntry} :
    e ∈ r.getWindowTabs w ↔ aget r.tabIndex e.tabId = some e ∧ e.windowId = w := by
  unfold Registry.getWindowTabs
  constructor
  · intro hm
    rcases List.mem_map.mp hm with ⟨p, hpf, hpe⟩
    have hpm := List.mem_filter.mp hpf
    have hag : aget r.tabIndex p.1 = some p.2 := aget_of_mem_nodup hnd hpm.1
    have ht := hT p.1 p.2 hag
    subst hpe
    constructor
    · rw [ht]
      exact hag
    · simpa using hpm.2
  · rintro ⟨hag, hww⟩
    refine List.mem_map.mpr ⟨(e.tabId, e), List.mem_filter.mpr ⟨aget_mem hag, ?_⟩, rfl⟩
    simpa using hww

theorem getWindowTabs_tabIds_nodup {r : Registry} (hnd : nodupKeys r.tabIndex)
    (hT : ∀ t e, aget r.tabIndex t = some e → e.tabId = t) (w : Nat) :
    ((r.getWindowTabs w).map (fun e => e.tabId)).Nodup := by
  unfold Registry.getWindowTabs
  rw [List.map_map]
  have hcongr : ∀ p ∈ r.tabIndex.filter (fun p => decide (p.2.windowId = w)),
      ((fun e => e.tabId) ∘ fun p => p.2) p = p.1 := by
    intro p hp
    have hpm := (List.mem_filter.mp hp).1
    exact hT p.1 p.2 (aget_of_mem_nodup hnd hpm)
  rw [List.map_congr_left hcongr]
  exact List.Nodup.sublist (List.Sublist.map _ (List.filter_sublist _)) hnd

theorem splitColonAux_no_colon (cs : List Char) (h : ¬ ':' ∈ cs) :
    ∀ acc, splitColonAux cs acc = [String.mk (acc.reverse ++ cs)] := by
  induction cs with
  | nil =>
    intro acc
    simp [splitColonAux]
  | cons c rest ih =>
    intro acc
    have hc : ¬ c = ':' := fun hh => h (by simp [hh])
    have hr : ¬ ':' ∈ rest := fun hh => h (by simp [hh])
    rw [splitColonAux, if_neg hc, ih hr]
    simp

theorem splitColonAux_through (cs1 cs2 : List Char) (h : ¬ ':' ∈ cs1) :
    ∀ acc, splitColonAux (cs1 ++ ':' :: cs2) acc =
      String.mk (acc.reverse ++ cs1) :: splitColonAux cs2 [] := by
  induction cs1 with
  | nil =>
    intro acc
    simp [splitColonAux]
  | cons c rest ih =>
    intro acc
    have hc : ¬ c = ':' := fun hh => h (by simp [hh])
    have hr : ¬ ':' ∈ rest := fun hh => h (by simp [hh])
    rw [List.cons_append, splitColonAux, if_neg hc, ih hr]
    simp

theorem splitKey_join (a v : String) (ha : ¬ ':' ∈ a.data) (hv : ¬ ':' ∈ v.data) :
    splitKey (a ++ ":" ++ v) = (a, v) := by
  unfold splitKey splitColon
  have hdata : (a ++ ":" ++ v).data = a.data ++ ':' :: v.data := by
    simp [String.data_append]
  rw [hdata, splitColonAux_through a.data v.data ha [],
    splitColonAux_no_colon v.data hv []]
  simp

/-- A one-tab registry exercising the bucketing partition. -/
def witnessRegistryC5 : Registry :=
  Registry.empty.setTabIdentity 5 1
    { appId := "a", versionId := "v", ty := PageType.editor, hostname := "h" } "u" 0

/-- C5: over any well-formed registry, `bucketTabsByIdentity` partitions
the eligible tabs by `(windowId, appId + ":" + versionId)`: no bucket is
empty or holds a tab twice; every bucketed tab is a registered, existing,
unpinned, unheld tab of the bucket's window whose joined identity key is
the bucket's key (and, when no registered identity component contains
`':'`, the bucket's parsed `appId`/`versionId` equal the tab's actual
identity); every eligible registered tab lands in a bucket carrying its
window and joined key; and no tab sits in two distinct buckets. -/
theorem bucketTabsByIdentity_partition (r : Registry) (holds : List (Nat × ManualHold))
    (tabExists tabPinned : Nat → Bool) (hWF : RegistryWF r) :
    (∀ b, b ∈ bucketTabsByIdentity r holds tabExists tabPinned →
      b.tabs ≠ [] ∧ b.tabs.Nodup) ∧
    (∀ b t, b ∈ bucketTabsByIdentity r holds tabExists tabPinned → t ∈ b.tabs →
      ∃ e, aget r.tabIndex t = some e ∧ e.windowId = b.windowId ∧
        e.appId ++ ":" ++ e.versionId = b.key ∧
        eligibleTab holds tabExists tabPinned e = true ∧
        (colonFreeRegistry r → b.appId = e.appId ∧ b.versionId = e.versionId)) ∧
    (∀ t e, aget r.tabIndex t = some e → eligibleTab holds tabExists tabPinned e = true →
      ∃ b, b ∈ bucketTabsByIdentity r holds tabExists tabPinned ∧ t ∈ b.tabs ∧
        b.windowId = e.windowId ∧ b.key = e.appId ++ ":" ++ e.versionId) ∧
    (∀ b1 b2 t, b1 ∈ bucketTabsByIdentity r holds tabExists tabPinned →
      b2 ∈ bucketTabsByIdentity r holds tabExists tabPinned →
      t ∈ b1.tabs → t ∈ b2.tabs → b1 = b2) := by
  obtain ⟨hnd, hnOK, hT, hiff⟩ := hWF
  have hsound : ∀ b t, b ∈ bucketTabsByIdentity r holds tabExists tabPinned → t ∈ b.tabs →
      ∃ e, aget r.tabIndex t = some e ∧ e.windowId = b.windowId ∧
        e.appId ++ ":" ++ e.versionId = b.key ∧
        eligibleTab holds tabExists tabPinned e = true ∧
        b.appId = (splitKey b.key).1 ∧ b.versionId = (splitKey b.key).2 := by
    intro b t hb ht
    rcases (mem_bucketTabsByIdentity r holds tabExists tabPinned b).mp hb with
      ⟨w, hw, p, hp, hne, hb2⟩
    have hpt : t ∈ p.2 := by rw [hb2] at ht; exact ht
    have hag : aget (bucketWindowMap (r.getWindowTabs w) holds tabExists tabPinned) p.1 =
        some p.2 := aget_of_mem_nodup (nodupKeys_bucketWindowMap _ _ _ _) hp
    rcases (bucketValue_mem _ _ _ _ _ _ _ hag).mp hpt with ⟨e, hee, het, hkey, helig⟩
    have hflat := (mem_getWindowTabs hnd hT).mp hee
    refine ⟨e, ?_, ?_, ?_, helig, ?_, ?_⟩
    · rw [← het]
      exact hflat.1
    · rw [hb2]
      exact hflat.2
    · rw [hb2]
      exact hkey
    · rw [hb2]
    · rw [hb2]
  refine ⟨?_, ?_, ?_, ?_⟩
  · intro b hb
    rcases (mem_bucketTabsByIdentity r holds tabExists tabPinned b).mp hb with
      ⟨w, hw, p, hp, hne, hb2⟩
    have hag : aget (bucketWindowMap (r.getWindowTabs w) holds tabExists tabPinned) p.1 =
        some p.2 := aget_of_mem_nodup (nodupKeys_bucketWindowMap _ _ _ _) hp
    constructor
    · rw [hb2]
      exact hne
    · rw [hb2]
      exact bucketValue_nodup _ _ _ _ _ _ (getWindowTabs_tabIds_nodup hnd hT w) hag
  · intro b t hb ht
    obtain ⟨e, h1, h2, h3, h4, h5, h6⟩ := hsound b t hb ht
    refine ⟨e, h1, h2, h3, h4, fun hcf => ?_⟩
    obtain ⟨hca, hcv⟩ := hcf t e h1
    have hsk : splitKey b.key = (e.appId, e.versionId) := by
      rw [← h3]
      exact splitKey_join _ _ hca hcv
    constructor
    · rw [h5, hsk]
    · rw [h6, hsk]
  · intro t e haget helig
    have ht := hT t e haget
    have hee : e ∈ r.getWindowTabs e.windowId :=
      (mem_getWindowTabs hnd hT).mpr ⟨by rw [ht]; exact haget, rfl⟩
    obtain ⟨l, hl⟩ :=
      bucketKey_present (r.getWindowTabs e.windowId) holds tabExists tabPinned e hee
    have htl : t ∈ l := (bucketValue_mem _ _ _ _ _ _ _ hl).mpr ⟨e, hee, ht, rfl, helig⟩
    have hmemn : t ∈ nGet r.tabsByIdentity e.windowId e.appId e.versionId :=
      (hiff t e.windowId e.appId e.versionId).mpr ⟨e, haget, rfl, rfl, rfl⟩
    obtain ⟨wm, am, vs, hwm, _, _, _⟩ := nGet_mem hmemn
    have hwkeys : e.windowId ∈ r.tabsByIdentity.map Prod.fst := aget_some_mem_keys hwm
    refine ⟨{ windowId := e.windowId, appId := (splitKey (e.appId ++ ":" ++ e.versionId)).1
              versionId := (splitKey (e.appId ++ ":" ++ e.versionId)).2, tabs := l
              key := e.appId ++ ":" ++ e.versionId }, ?_, htl, rfl, rfl⟩
    exact (mem_bucketTabsByIdentity r holds tabExists tabPinned _).mpr
      ⟨e.windowId, hwkeys, (e.appId ++ ":" ++ e.versionId, l), aget_mem hl,
        List.ne_nil_of_mem htl, rfl⟩
  · intro b1 b2 t hb1 hb2 ht1 ht2
    rcases (mem_bucketTabsByIdentity r holds tabExists tabPinned b1).mp hb1 with
      ⟨w1, hw1, p1, hp1, hne1, he1⟩
    rcases (mem_bucketTabsByIdentity r holds tabExists tabPinned b2).mp hb2 with
      ⟨w2, hw2, p2, hp2, hne2, he2⟩
    have hag1 : aget (bucketWindowMap (r.getWindowTabs w1) holds tabExists tabPinned) p1.1 =
        some p1.2 := aget_of_mem_nodup (nodupKeys_bucketWindowMap _ _ _ _) hp1
    have hag2 : aget (bucketWindowMap (r.getWindowTabs w2) holds tabExists tabPinned) p2.1 =
        some p2.2 := aget_of_mem_nodup (nodupKeys_bucketWindowMap _ _ _ _) hp2
    have ht1p : t ∈ p1.2 := by rw [he1] at ht1; exact ht1
    have ht2p : t ∈ p2.2 := by rw [he2] at ht2; exact ht2
    rcases (bucketValue_mem _ _ _ _ _ _ _ hag1).mp ht1p with ⟨e1, hee1, het1, hkey1, helig1⟩
    rcases (bucketValue_mem _ _ _ _ _ _ _ hag2).mp ht2p with ⟨e2, hee2, het2, hkey2, helig2⟩
    have hf1 := (mem_getWindowTabs hnd hT).mp hee1
    have hf2 := (mem_getWindowTabs hnd hT).mp hee2
    have hae1 : aget r.tabIndex t = some e1 := by rw [← het1]; exact hf1.1
    have hae2 : aget r.tabIndex t = some e2 := by rw [← het2]; exact hf2.1
    have hee : e1 = e2 := Option.some.inj (hae1.symm.trans hae2)
    have hww : w1 = w2 := by rw [← hf1.2, ← hf2.2, hee]
    have hkk : p1.1 = p2.1 := by rw [← hkey1, ← hkey2, hee]
    have hpp2 : p1.2 = p2.2 := by
      have hag2b : aget (bucketWindowMap (r.getWindowTabs w1) holds tabExists tabPinned) p1.1 =
          some p2.2 := by
        rw [hww, hkk]
        exact hag2
      exact Option.some.inj (hag1.symm.trans hag2b)
    rw [he1, he2, hww, hkk, hpp2]

theorem bucketTabsByIdentity_partition_witness :
    ∃ b, b ∈ bucketTabsByIdentity witnessRegistryC5 [] (fun _ => true) (fun _ => false) ∧
      5 ∈ b.tabs ∧ b.windowId = 1 ∧ b.key = "a" ++ ":" ++ "v" := by
  have hWF : RegistryWF witnessRegistryC5 :=
    setTabIdentity_WF RegistryWF_empty 5 1
      { appId := "a", versionId := "v", ty := PageType.editor, hostname := "h" } "u" 0
  have h := bucketTabsByIdentity_partition witnessRegistryC5 [] (fun _ => true)
    (fun _ => false) hWF
  obtain ⟨b, hb, htb, hbw, hbk⟩ := h.2.2.1 5
    { tabId := 5, windowId := 1, appId := "a", versionId := "v", ty := PageType.editor
      hostname := "h", url := "u", updatedAt := 0 } (by decide) (by decide)
  exact ⟨b, hb, htb, hbw, hbk⟩

/-- The bucket key is the joined string `appId + ":" + versionId`
re-parsed with `key.split(':')`, so identities containing `':'` break the
claimed keying: the two tabs of `cexRegistryC5`, of distinct identities
`("a", "b:c")` and `("a:b", "c")`, land in one shared bucket whose parsed
identity `("a", "b")` matches neither tab. -/
theorem bucketTabs_colon_cex :
    bucketTabsByIdentity cexRegistryC5 [] (fun _ => true) (fun _ => false) =
      [{ windowId := 1, appId := "a", versionId := "b", tabs := [1, 2], key := "a:b:c" }] ∧
    aget cexRegistryC5.tabIndex 1 = some
      { tabId := 1, windowId := 1, appId := "a", versionId := "b:c", ty := PageType.editor
        hostname := "h", url := "u", updatedAt := 0 } ∧
    aget cexRegistryC5.tabIndex 2 = some
      { tabId := 2, windowId := 1, appId := "a:b", versionId := "c", ty := PageType.editor
        hostname := "h", url := "u", updatedAt := 0 } := by
  refine ⟨by decide, by decide, by decide⟩

end BTM
